import Mathlib

/-!
Verification development for the cv-mailer tracker core.

The definitions below are a shallow embedding of the Python sources:
`tracker.py`, `models.py`, `main.py`, `gmail_sender.py`,
`recruiter_parser.py` and `src/cv_mailer/parsers/recruiter.py`.
The persistence store is modelled as explicit lists of rows; SQLAlchemy
queries become list filters; `datetime` values become integer UTC readings
(microseconds) together with an awareness flag mirroring `tzinfo`.
-/

namespace CvMailer

/-! ## Data model (models.py) -/

/-- models.py `JobStatus`. -/
inductive JobStatus where
  | draft | reached_out | applied | interview_scheduled
  | in_progress | closed | rejected | accepted
deriving DecidableEq

/-- models.py `EmailType`. -/
inductive EmailType where
  | first_contact | follow_up
deriving DecidableEq

/-- models.py `EmailStatus`. -/
inductive EmailStatus where
  | pending | sent | failed | bounced
deriving DecidableEq

/-- A Python `datetime`: `v` is the clock reading in microseconds (interpreted
as UTC -- naive values are UTC readings by the tracker's convention) and
`aware` mirrors whether `tzinfo` is set. -/
structure DTime where
  v : Int
  aware : Bool
deriving DecidableEq

/-- models.py `EmailRecord` row. -/
structure EmailRecord where
  id : Nat
  job_application_id : Nat
  email_type : EmailType
  subject : String
  body : String
  recipient_email : String
  recipient_name : Option String
  status : EmailStatus
  gmail_message_id : Option String
  error_message : Option String
  is_follow_up : Bool
  follow_up_number : Nat
  created_at : Option DTime
  sent_at : Option DTime
deriving DecidableEq

/-- models.py `JobApplication` row. -/
structure JobApplication where
  id : Nat
  spreadsheet_row_id : String
  sheet_name : Option String
  company_name : String
  position : String
  location : Option String
  job_posting_url : Option String
  expected_salary : Option String
  custom_message : Option String
  status : JobStatus
  notes : Option String
  created_at : Option DTime
  updated_at : Option DTime
  applied_at : Option DTime
  closed_at : Option DTime
deriving DecidableEq

/-- models.py `Recruiter` row. -/
structure Recruiter where
  id : Nat
  name : Option String
  email : String
deriving DecidableEq

/-- The persistence store: the tables the tracker reads and writes.
`links` is the `job_application_recruiter` junction table, kept in
relationship (insertion) order. -/
structure Store where
  apps : List JobApplication
  recruiters : List Recruiter
  links : List (Nat × Nat)
  records : List EmailRecord
  nextAppId : Nat
  nextRecruiterId : Nat
  nextRecordId : Nat
deriving DecidableEq

/-- config.py values the tracker consults. -/
structure TrackerConfig where
  followUpDays : Nat
  maxFollowUps : Nat
deriving DecidableEq

/-- `timedelta(days=1)` in microseconds. -/
def microsecondsPerDay : Int := 86400000000

/-! ## Python truthiness helpers -/

/-- Python truthiness of an optional string (`None` and `""` are falsy). -/
def pyTruthyStr (s : Option String) : Bool :=
  match s with
  | none => false
  | some t => !t.isEmpty

/-- Python `new or old` on optional strings (tracker.py lines 57-60). -/
def pyOrStr (newVal oldVal : Option String) : Option String :=
  if pyTruthyStr newVal then newVal else oldVal

/-! ## Follow-up numbering (tracker.py `get_next_follow_up_number`) -/

/-- `follow_up_number`s of the rows matched by
`filter_by(job_application_id=..., is_follow_up=True, status=SENT)`. -/
def sentFollowUpNumbers (records : List EmailRecord) (appId : Nat) : List Nat :=
  (records.filter fun r =>
    r.job_application_id == appId && r.is_follow_up && r.status == EmailStatus.sent
  ).map (·.follow_up_number)

/-- `query(func.max(EmailRecord.follow_up_number)) ... .scalar() or 0`:
the SQL `max` of an empty set is NULL, which `or 0` turns into 0; on `Nat`
the fold with base 0 computes exactly that (`0 or 0` is also 0). -/
def maxSentFollowUpNumber (records : List EmailRecord) (appId : Nat) : Nat :=
  (sentFollowUpNumbers records appId).foldr max 0

/-- tracker.py `get_next_follow_up_number` (lines 237-248). -/
def getNextFollowUpNumber (st : Store) (appId : Nat) : Nat :=
  maxSentFollowUpNumber st.records appId + 1

/-! ## Follow-up eligibility (tracker.py `get_applications_needing_follow_up`) -/

/-- Rows matched by `filter_by(job_application_id=app.id, status=SENT)`. -/
def sentRecordsOf (records : List EmailRecord) (appId : Nat) : List EmailRecord :=
  records.filter fun r => r.job_application_id == appId && r.status == EmailStatus.sent

/-- The `sent_at` sort key of a row; `none` for SQL NULL. -/
def timeKey (r : EmailRecord) : Option Int := r.sent_at.map (·.v)

/-- SQLite ordering on a nullable column: NULL sorts below every value. -/
def optTimeLe (a b : Option Int) : Bool :=
  match a, b with
  | none, _ => true
  | some _, none => false
  | some x, some y => x ≤ y

/-- Strict version of `optTimeLe`. -/
def optTimeLt (a b : Option Int) : Bool :=
  optTimeLe a b && !optTimeLe b a

/-- Deterministic model of `.order_by(EmailRecord.sent_at.desc()).first()`:
a row with maximal `sent_at` (earliest such row on ties). -/
def pickMaxBySentAt : List EmailRecord → Option EmailRecord
  | [] => none
  | r :: t =>
    match pickMaxBySentAt t with
    | none => some r
    | some b => if optTimeLt (timeKey r) (timeKey b) then some b else some r

/-- tracker.py lines 205-208: most recent sent email of an application. -/
def lastSentEmail (records : List EmailRecord) (appId : Nat) : Option EmailRecord :=
  pickMaxBySentAt (sentRecordsOf records appId)

/-- tracker.py lines 217-219: `sent_at.replace(tzinfo=timezone.utc)` when
naive -- the clock reading is kept and interpreted as a UTC instant, so the
instant used in the comparison is `v` in both cases. -/
def normalizeUTC (t : DTime) : Int := t.v

/-- Body of the per-application loop of `get_applications_needing_follow_up`
(tracker.py lines 195-233), including the SQL status filter. -/
def needsFollowUp (cfg : TrackerConfig) (now : Int) (records : List EmailRecord)
    (app : JobApplication) : Bool :=
  (app.status == JobStatus.reached_out || app.status == JobStatus.applied) &&
  match lastSentEmail records app.id with
  | none => false
  | some last =>
    match last.sent_at with
    | none => false
    | some t =>
      -- `sent_at < cutoff_date` with `cutoff_date = now - timedelta(days=FOLLOW_UP_DAYS)`
      decide (normalizeUTC t < now - (cfg.followUpDays : Int) * microsecondsPerDay) &&
      decide (maxSentFollowUpNumber records app.id < cfg.maxFollowUps)

/-- tracker.py `get_applications_needing_follow_up` (lines 191-235). -/
def getApplicationsNeedingFollowUp (cfg : TrackerConfig) (now : Int) (st : Store) :
    List JobApplication :=
  st.apps.filter (needsFollowUp cfg now st.records)

/-! ## Specification-side formulations for C1/C2 -/

/-- Maximum of a list of integers, `none` when empty (specification side). -/
def listMaxInt : List Int → Option Int
  | [] => none
  | x :: t =>
    match listMaxInt t with
    | none => some x
    | some m => some (max x m)

/-- Timestamps of the successful sends of an application (NULLs dropped,
naive readings interpreted as UTC). -/
def sentTimes (records : List EmailRecord) (appId : Nat) : List Int :=
  (sentRecordsOf records appId).filterMap fun r => r.sent_at.map (·.v)

/-- The most recent successful-send instant of an application. -/
def specMaxSentTime (records : List EmailRecord) (appId : Nat) : Option Int :=
  listMaxInt (sentTimes records appId)

/-- The eligibility predicate exactly as claim C2 words it: elapsed time at
least (`≥`) the configured interval. -/
def eligibleClaimGE (cfg : TrackerConfig) (now : Int) (records : List EmailRecord)
    (app : JobApplication) : Prop :=
  (app.status = JobStatus.reached_out ∨ app.status = JobStatus.applied) ∧
  (∃ r ∈ records, r.job_application_id = app.id ∧ r.status = EmailStatus.sent) ∧
  (∃ m, specMaxSentTime records app.id = some m ∧
    (cfg.followUpDays : Int) * microsecondsPerDay ≤ now - m) ∧
  maxSentFollowUpNumber records app.id < cfg.maxFollowUps

/-- The amended eligibility predicate: elapsed time strictly greater than
the configured interval (what `sent_at < cutoff_date` actually tests). -/
def eligibleStrict (cfg : TrackerConfig) (now : Int) (records : List EmailRecord)
    (app : JobApplication) : Prop :=
  (app.status = JobStatus.reached_out ∨ app.status = JobStatus.applied) ∧
  (∃ r ∈ records, r.job_application_id = app.id ∧ r.status = EmailStatus.sent) ∧
  (∃ m, specMaxSentTime records app.id = some m ∧
    (cfg.followUpDays : Int) * microsecondsPerDay < now - m) ∧
  maxSentFollowUpNumber records app.id < cfg.maxFollowUps

instance (cfg : TrackerConfig) (now : Int) (records : List EmailRecord)
    (app : JobApplication) : Decidable (eligibleClaimGE cfg now records app) := by
  unfold eligibleClaimGE; infer_instance

instance (cfg : TrackerConfig) (now : Int) (records : List EmailRecord)
    (app : JobApplication) : Decidable (eligibleStrict cfg now records app) := by
  unfold eligibleStrict; infer_instance

/-! ## Concrete fixtures for C1 and C2 -/

/-- A template email record used to build concrete fixtures. -/
def baseRecord : EmailRecord where
  id := 0
  job_application_id := 1
  email_type := EmailType.first_contact
  subject := ""
  body := ""
  recipient_email := ""
  recipient_name := none
  status := EmailStatus.sent
  gmail_message_id := some "m"
  error_message := none
  is_follow_up := false
  follow_up_number := 0
  created_at := none
  sent_at := some { v := 0, aware := true }

/-- A template application used to build concrete fixtures. -/
def baseApp : JobApplication where
  id := 1
  spreadsheet_row_id := "Sheet1_2"
  sheet_name := some "Sheet1"
  company_name := "Acme"
  position := "Engineer"
  location := none
  job_posting_url := none
  expected_salary := none
  custom_message := none
  status := JobStatus.reached_out
  notes := none
  created_at := none
  updated_at := none
  applied_at := none
  closed_at := none

/-- C1 fixture: one application, 2 recruiters; first contact sent to both,
then one follow-up wave (number 1) sent to both -- 4 sent rows in total. -/
def c1store : Store where
  apps := [baseApp]
  recruiters := [{ id := 1, name := some "A", email := "a@x.com" },
                 { id := 2, name := some "B", email := "b@x.com" }]
  links := [(1, 1), (1, 2)]
  records :=
    [{ baseRecord with
        id := 1, recipient_email := "a@x.com",
        sent_at := some { v := 10, aware := true } },
     { baseRecord with
        id := 2, recipient_email := "b@x.com",
        sent_at := some { v := 11, aware := true } },
     { baseRecord with
        id := 3, recipient_email := "a@x.com",
        email_type := EmailType.follow_up, is_follow_up := true,
        follow_up_number := 1, sent_at := some { v := 20, aware := true } },
     { baseRecord with
        id := 4, recipient_email := "b@x.com",
        email_type := EmailType.follow_up, is_follow_up := true,
        follow_up_number := 1, sent_at := some { v := 21, aware := true } }]
  nextAppId := 2
  nextRecruiterId := 3
  nextRecordId := 5

/-- C2 boundary fixture: a single sent record exactly `FOLLOW_UP_DAYS` old. -/
def c2store : Store where
  apps := [baseApp]
  recruiters := []
  links := []
  records := [{ baseRecord with
                id := 1, recipient_email := "a@x.com",
                sent_at := some { v := 0, aware := true } }]
  nextAppId := 2
  nextRecruiterId := 1
  nextRecordId := 2

/-- config used in the C2 boundary fixture. -/
def c2cfg : TrackerConfig where
  followUpDays := 7
  maxFollowUps := 3

/-- "now" exactly 7 days after the only send of `c2store`. -/
def c2now : Int := 7 * microsecondsPerDay

/-! ## Tracker write operations (tracker.py) -/

/-- One element of the `recruiters` argument: a dict whose `'name'`/`'email'`
keys are read with `.get` (absent keys yield `None`). -/
structure RecruiterInput where
  name : Option String
  email : Option String
deriving DecidableEq

/-- Arguments of `get_or_create_job_application`. -/
structure UpsertArgs where
  spreadsheet_row_id : String
  company_name : String
  position : String
  recruiters : List RecruiterInput
  location : Option String
  job_posting_url : Option String
  expected_salary : Option String
  custom_message : Option String
  sheet_name : Option String
deriving DecidableEq

/-- Body of the `for recruiter_data in recruiters` loop of
`_link_recruiters_to_application` (tracker.py lines 97-116): skip falsy
emails, get-or-create the recruiter by exact email, link unless already
linked (a freshly created recruiter is never already in the collection). -/
def linkOneRecruiter (appId : Nat) (st : Store) (input : RecruiterInput) : Store :=
  match input.email with
  | none => st
  | some e =>
    if e.isEmpty then st
    else
      match st.recruiters.find? (fun r => r.email == e) with
      | some r =>
        if (appId, r.id) ∈ st.links then st
        else { st with links := st.links ++ [(appId, r.id)] }
      | none =>
        let rid := st.nextRecruiterId
        { st with
          recruiters := st.recruiters ++ [{ id := rid, name := input.name, email := e }],
          nextRecruiterId := rid + 1,
          links := st.links ++ [(appId, rid)] }

/-- tracker.py `_link_recruiters_to_application` (lines 89-116): an empty
recruiter list returns early WITHOUT clearing the existing links; otherwise
the application's links are cleared and rebuilt from the input list. -/
def linkRecruitersToApplication (st : Store) (appId : Nat)
    (inputs : List RecruiterInput) : Store :=
  if inputs.isEmpty then st
  else
    let cleared := { st with links := st.links.filter (fun l => !(l.1 == appId)) }
    inputs.foldl (linkOneRecruiter appId) cleared

/-- Replace the first application with the given row id (`.first()` row is
the one the ORM mutates in place). -/
def replaceFirstApp (apps : List JobApplication) (rowId : String)
    (newApp : JobApplication) : List JobApplication :=
  match apps with
  | [] => []
  | a :: t =>
    if a.spreadsheet_row_id == rowId then newApp :: t
    else a :: replaceFirstApp t rowId newApp

/-- tracker.py `get_or_create_job_application` (lines 30-87). On the update
path `company_name`/`position` are overwritten unconditionally while the
optional fields use Python `or` (keep the old value when the new one is
falsy); `updated_at` is `datetime.utcnow()` (naive). Returns the store and
the application's id. -/
def getOrCreateJobApplication (st : Store) (args : UpsertArgs) (now : Int) :
    Store × Nat :=
  match st.apps.find? (fun a => a.spreadsheet_row_id == args.spreadsheet_row_id) with
  | some app =>
    let updated := { app with
      company_name := args.company_name,
      position := args.position,
      location := pyOrStr args.location app.location,
      job_posting_url := pyOrStr args.job_posting_url app.job_posting_url,
      expected_salary := pyOrStr args.expected_salary app.expected_salary,
      custom_message := pyOrStr args.custom_message app.custom_message,
      updated_at := some { v := now, aware := false } }
    let st1 := { st with apps := replaceFirstApp st.apps args.spreadsheet_row_id updated }
    (linkRecruitersToApplication st1 app.id args.recruiters, app.id)
  | none =>
    let newId := st.nextAppId
    let newApp : JobApplication := {
      id := newId
      spreadsheet_row_id := args.spreadsheet_row_id
      sheet_name := args.sheet_name
      company_name := args.company_name
      position := args.position
      location := args.location
      job_posting_url := args.job_posting_url
      expected_salary := args.expected_salary
      custom_message := args.custom_message
      status := JobStatus.draft
      notes := none
      created_at := some { v := now, aware := false }
      updated_at := some { v := now, aware := false }
      applied_at := none
      closed_at := none }
    let st1 := { st with apps := st.apps ++ [newApp], nextAppId := newId + 1 }
    (linkRecruitersToApplication st1 newId args.recruiters, newId)

/-- The JobApplication row the create path of
`get_or_create_job_application` inserts (tracker.py lines 56-76), named
for reuse in statements; definitionally equal to the literal inside
`getOrCreateJobApplication`. -/
def freshApp (args : UpsertArgs) (now : Int) (newId : Nat) : JobApplication := {
  id := newId
  spreadsheet_row_id := args.spreadsheet_row_id
  sheet_name := args.sheet_name
  company_name := args.company_name
  position := args.position
  location := args.location
  job_posting_url := args.job_posting_url
  expected_salary := args.expected_salary
  custom_message := args.custom_message
  status := JobStatus.draft
  notes := none
  created_at := some { v := now, aware := false }
  updated_at := some { v := now, aware := false }
  applied_at := none
  closed_at := none }

/-- The in-place field update the update path of
`get_or_create_job_application` applies (tracker.py lines 40-54);
definitionally equal to the literal inside `getOrCreateJobApplication`. -/
def updApp (args : UpsertArgs) (now : Int) (app : JobApplication) : JobApplication :=
  { app with
    company_name := args.company_name,
    position := args.position,
    location := pyOrStr args.location app.location,
    job_posting_url := pyOrStr args.job_posting_url app.job_posting_url,
    expected_salary := pyOrStr args.expected_salary app.expected_salary,
    custom_message := pyOrStr args.custom_message app.custom_message,
    updated_at := some { v := now, aware := false } }

/-- `session.query(JobApplication).get(id)`. -/
def findApp (st : Store) (appId : Nat) : Option JobApplication :=
  st.apps.find? (fun a => a.id == appId)

/-- Mutate the first application with the given id. -/
def updateFirstAppById (apps : List JobApplication) (appId : Nat)
    (f : JobApplication → JobApplication) : List JobApplication :=
  match apps with
  | [] => []
  | a :: t => if a.id == appId then f a :: t else a :: updateFirstAppById t appId f

/-- Arguments of `record_email_sent`. -/
structure RecordSentArgs where
  job_application_id : Nat
  email_type : EmailType
  subject : String
  body : String
  recipient_email : String
  recipient_name : Option String
  gmail_message_id : Option String
  is_follow_up : Bool
  follow_up_number : Nat
deriving DecidableEq

/-- tracker.py `record_email_sent` (lines 118-159). Raises `ValueError` when
the application does not exist. The record's status is SENT and `sent_at`
is `datetime.now(timezone.utc)` exactly when `gmail_message_id` is truthy
(Python: `None` and `""` are falsy), else PENDING with NULL `sent_at`.
A DRAFT application transitions to REACHED_OUT with `applied_at` set. -/
def recordEmailSent (st : Store) (a : RecordSentArgs) (now : Int) :
    Except String (Store × EmailRecord) :=
  match findApp st a.job_application_id with
  | none => Except.error "Job application not found"
  | some app =>
    let newRecord : EmailRecord := {
      id := st.nextRecordId
      job_application_id := a.job_application_id
      email_type := a.email_type
      subject := a.subject
      body := a.body
      recipient_email := a.recipient_email
      recipient_name := a.recipient_name
      status := if pyTruthyStr a.gmail_message_id then EmailStatus.sent else EmailStatus.pending
      gmail_message_id := a.gmail_message_id
      error_message := none
      is_follow_up := a.is_follow_up
      follow_up_number := a.follow_up_number
      created_at := some { v := now, aware := false }
      sent_at := if pyTruthyStr a.gmail_message_id then some { v := now, aware := true } else none }
    let apps1 :=
      if app.status == JobStatus.draft then
        updateFirstAppById st.apps a.job_application_id (fun x =>
          { x with status := JobStatus.reached_out,
                   applied_at := some { v := now, aware := true } })
      else st.apps
    Except.ok ({ st with
                 apps := apps1, records := st.records ++ [newRecord],
                 nextRecordId := st.nextRecordId + 1 }, newRecord)

/-- tracker.py `record_email_failed` (lines 161-189): inserts a FAILED
record (no `sent_at`, no message id) and never touches the status. -/
def recordEmailFailed (st : Store) (appId : Nat) (etype : EmailType)
    (subject body recipientEmail : String) (recipientName : Option String)
    (errorMessage : String) (now : Int) : Except String Store :=
  match findApp st appId with
  | none => Except.error "Job application not found"
  | some _ =>
    let newRecord : EmailRecord := {
      id := st.nextRecordId
      job_application_id := appId
      email_type := etype
      subject := subject
      body := body
      recipient_email := recipientEmail
      recipient_name := recipientName
      status := EmailStatus.failed
      gmail_message_id := none
      error_message := some errorMessage
      is_follow_up := false
      follow_up_number := 0
      created_at := some { v := now, aware := false }
      sent_at := none }
    Except.ok { st with
                records := st.records ++ [newRecord],
                nextRecordId := st.nextRecordId + 1 }

/-- tracker.py `update_job_status` (lines 328-351): sets the status
unconditionally, sets `notes` when truthy, and `closed_at` when moving to
CLOSED (the `elif status == INTERVIEW_SCHEDULED` branch re-assigns the same
status and is a no-op). -/
def updateJobStatus (st : Store) (appId : Nat) (status : JobStatus)
    (notes : Option String) (now : Int) : Except String Store :=
  match findApp st appId with
  | none => Except.error "Job application not found"
  | some _ =>
    Except.ok { st with apps := updateFirstAppById st.apps appId (fun a =>
      let a1 := { a with status := status, updated_at := some { v := now, aware := true } }
      let a2 := if pyTruthyStr notes then { a1 with notes := notes } else a1
      if status == JobStatus.closed then
        { a2 with closed_at := some { v := now, aware := true } }
      else a2) }

/-! ## Repair routine (tracker.py `repair_follow_up_numbers`) -/

/-- First-occurrence deduplication (SQL `DISTINCT`). -/
def distinctNatsAux (seen : List Nat) : List Nat → List Nat
  | [] => []
  | n :: t =>
    if n ∈ seen then distinctNatsAux seen t
    else n :: distinctNatsAux (n :: seen) t

/-- First-occurrence deduplication of a list of naturals. -/
def distinctNats (l : List Nat) : List Nat := distinctNatsAux [] l

/-- tracker.py lines 269-275: distinct application ids having a sent
follow-up record. -/
def repairAppIds (records : List EmailRecord) : List Nat :=
  distinctNats ((records.filter fun r =>
    r.is_follow_up && r.status == EmailStatus.sent).map (·.job_application_id))

/-- Rows matched by the waves query's filters (tracker.py lines 281-291):
sent follow-ups of the application with positive `follow_up_number`. -/
def followUpSentPos (records : List EmailRecord) (appId : Nat) : List EmailRecord :=
  records.filter fun r =>
    r.job_application_id == appId && r.is_follow_up &&
    r.status == EmailStatus.sent && decide (0 < r.follow_up_number)

/-- Minimum of a list of integers, `none` when empty. -/
def listMinInt : List Int → Option Int
  | [] => none
  | x :: t =>
    match listMinInt t with
    | none => some x
    | some m => some (min x m)

/-- `func.min(EmailRecord.sent_at)` of one wave (SQL `min` ignores NULLs;
an all-NULL group yields NULL, which sorts first). -/
def minSentAtOfWave (records : List EmailRecord) (appId : Nat) (n : Nat) : Option Int :=
  listMinInt (((followUpSentPos records appId).filter
    (fun r => r.follow_up_number == n)).filterMap (fun r => r.sent_at.map (·.v)))

/-- Stable insertion into a key-sorted list of wave numbers. -/
def sInsertByKey (key : Nat → Option Int) (n : Nat) : List Nat → List Nat
  | [] => [n]
  | m :: t =>
    if optTimeLe (key m) (key n) then m :: sInsertByKey key n t
    else n :: m :: t

/-- Stable insertion sort of wave numbers by an optional-integer key
(ties keep the input order, modelling an unspecified SQL tie order). -/
def sSortByKey (key : Nat → Option Int) : List Nat → List Nat
  | [] => []
  | n :: t => sInsertByKey key n (sSortByKey key t)

/-- tracker.py lines 281-293: the application's distinct positive wave
numbers ordered by each wave's earliest `sent_at` (`GROUP BY` emits keys in
ascending numeric order, then `ORDER BY min(sent_at) ASC` sorts them). -/
def waveNumbers (records : List EmailRecord) (appId : Nat) : List Nat :=
  let nums := distinctNats ((followUpSentPos records appId).map (·.follow_up_number))
  let grouped := sSortByKey (fun n => some (n : Int)) nums
  sSortByKey (minSentAtOfWave records appId) grouped

/-- Running state of `repair_follow_up_numbers`: the three reported
counters, the log of per-application mappings (the `logger.warning` line,
emitted exactly for changed applications), and the session's records. -/
structure RepairState where
  scanned : Nat
  changed : Nat
  rowsUpdated : Nat
  log : List (Nat × List (Nat × Nat))
  records : List EmailRecord
deriving DecidableEq

/-- One `(old_num, new_num)` iteration of the update loop (tracker.py lines
307-321): `old == new` is skipped; otherwise the rows currently matching
`old_num` are counted (dry run) or counted-and-renumbered (apply), running
against the session state as it stands at that iteration. -/
def applyWaveUpdate (dryRun : Bool) (appId : Nat) (acc : Nat × List EmailRecord)
    (pair : Nat × Nat) : Nat × List EmailRecord :=
  if pair.1 == pair.2 then acc
  else
    let matchesOld := fun (r : EmailRecord) =>
      r.job_application_id == appId && r.is_follow_up &&
      r.status == EmailStatus.sent && r.follow_up_number == pair.1
    let hit := acc.2.filter matchesOld
    if dryRun then (acc.1 + hit.length, acc.2)
    else (acc.1 + hit.length,
      acc.2.map (fun r => if matchesOld r then { r with follow_up_number := pair.2 } else r))

/-- The `mapping` dict built for one application (tracker.py line 301):
chronological wave numbers zipped with the dense sequence `1..N`. -/
def repairMapping (records : List EmailRecord) (appId : Nat) : List (Nat × Nat) :=
  (waveNumbers records appId).zip (List.range' 1 (waveNumbers records appId).length)

/-- Per-application body of `repair_follow_up_numbers` (tracker.py lines
277-321): `applications_scanned` always increments; an application with no
(positive) waves or with an already-dense sequence is left alone;
otherwise it is counted as changed, its mapping is logged, and the update
loop runs over the session state. -/
def repairOneApp (dryRun : Bool) (s : RepairState) (appId : Nat) : RepairState :=
  if (waveNumbers s.records appId).isEmpty then
    { s with scanned := s.scanned + 1 }
  else if waveNumbers s.records appId =
      List.range' 1 (waveNumbers s.records appId).length then
    { s with scanned := s.scanned + 1 }
  else
    { s with
      scanned := s.scanned + 1,
      changed := s.changed + 1,
      log := s.log ++ [(appId, repairMapping s.records appId)],
      rowsUpdated := ((repairMapping s.records appId).foldl
        (applyWaveUpdate dryRun appId) (s.rowsUpdated, s.records)).1,
      records := ((repairMapping s.records appId).foldl
        (applyWaveUpdate dryRun appId) (s.rowsUpdated, s.records)).2 }

/-- tracker.py `repair_follow_up_numbers` (lines 250-326). -/
def repairFollowUpNumbers (st : Store) (dryRun : Bool) : RepairState :=
  (repairAppIds st.records).foldl (repairOneApp dryRun)
    { scanned := 0, changed := 0, rowsUpdated := 0, log := [], records := st.records }

/-! ## Rate-limit check (gmail_sender.py `_check_rate_limit`) -/

/-- Outcome of one attempt of the rate-limit check's database query:
the query succeeds (with today's row holding `emails_sent = n`, or no row),
raises an `OperationalError` mentioning "locked", or raises anything else. -/
inductive RateAttemptOutcome where
  | ok (statsSent : Option Nat)
  | lockedError
  | otherError
deriving DecidableEq

/-- gmail_sender.py `_check_rate_limit` loop (lines 73-112), indexed by the
remaining iterations (`maxRetries - attempt`). Returns the decision and the
list of backoff sleeps in milliseconds (`0.05 * 2 ** attempt` seconds).
A locked error on the last attempt, any other error, and loop exhaustion
all return `true` (fail open). -/
def checkRateLimitGo (limit : Nat) (outcomes : Nat → RateAttemptOutcome)
    (attempt : Nat) : Nat → Bool × List Nat
  | 0 => (true, [])
  | remaining + 1 =>
    match outcomes attempt with
    | RateAttemptOutcome.ok (some sent) => (decide (sent < limit), [])
    | RateAttemptOutcome.ok none => (true, [])
    | RateAttemptOutcome.lockedError =>
      if remaining == 0 then (true, [])
      else
        let r := checkRateLimitGo limit outcomes (attempt + 1) remaining
        (r.1, 50 * 2 ^ attempt :: r.2)
    | RateAttemptOutcome.otherError => (true, [])

/-- gmail_sender.py `_check_rate_limit` (default `max_retries = 3`). -/
def checkRateLimit (limit : Nat) (outcomes : Nat → RateAttemptOutcome)
    (maxRetries : Nat) : Bool × List Nat :=
  checkRateLimitGo limit outcomes 0 maxRetries

/-! ## Follow-up wave (main.py `send_follow_ups`, lines 361-445) -/

/-- main.py lines 366-370: successful first-contact records of the
application. -/
def firstContactSentRecords (records : List EmailRecord) (appId : Nat) :
    List EmailRecord :=
  records.filter fun r =>
    r.job_application_id == appId && r.email_type == EmailType.first_contact &&
    r.status == EmailStatus.sent

/-- main.py lines 385-393: keep the first occurrence of each truthy
recipient email (exact string comparison via `seen_emails`). -/
def dedupRecipientsAux (seen : List String) :
    List (String × Option String) → List (String × Option String)
  | [] => []
  | (e, n) :: t =>
    if !e.isEmpty && !(decide (e ∈ seen)) then (e, n) :: dedupRecipientsAux (e :: seen) t
    else dedupRecipientsAux seen t

/-- The application's currently linked recruiters, in link order. -/
def linkedRecruitersOf (st : Store) (appId : Nat) : List Recruiter :=
  (st.links.filter (fun l => l.1 == appId)).filterMap
    (fun l => st.recruiters.find? (fun r => r.id == l.2))

/-- main.py lines 364-393: recipients of a follow-up wave -- the distinct
recipients of successful first-contact records, else the linked recruiter
set, else `none` (the application is skipped). -/
def followUpRecipients (st : Store) (appId : Nat) :
    Option (List (String × Option String)) :=
  let fc := firstContactSentRecords st.records appId
  if fc.isEmpty then
    let rs := linkedRecruitersOf st appId
    if rs.isEmpty then none
    else some (rs.map (fun r => (r.email, r.name)))
  else some (dedupRecipientsAux [] (fc.map (fun r => (r.recipient_email, r.recipient_name))))

/-- main.py lines 398-404: does the application already have a sent
follow-up record with exactly this number for this recipient? -/
def hasSentFollowUpTo (records : List EmailRecord) (appId : Nat)
    (email : String) (n : Nat) : Bool :=
  records.any fun r =>
    r.job_application_id == appId && r.recipient_email == email &&
    r.is_follow_up && r.follow_up_number == n && r.status == EmailStatus.sent

/-- main.py lines 396-445: the per-recipient loop of one wave. `oracle`
models `gmail_sender.send_email` (the returned message id, `if message_id:`
truthy-tested) and `render` models `EmailTemplate.render_follow_up`
(external collaborators per the spec). Returns the store and the number of
follow-ups sent. A failed send only prints; nothing is recorded. -/
def sendWaveGo (appId : Nat) (n : Nat) (oracle : String → Option String)
    (render : Option String → Nat → String × String) (now : Int) :
    List (String × Option String) → Store → Except String (Store × Nat)
  | [], st => Except.ok (st, 0)
  | (e, name) :: rest, st =>
    if hasSentFollowUpTo st.records appId e n then
      sendWaveGo appId n oracle render now rest st
    else if pyTruthyStr (oracle e) then
      let sb := render name n
      match recordEmailSent st
        { job_application_id := appId, email_type := EmailType.follow_up,
          subject := sb.1, body := sb.2, recipient_email := e,
          recipient_name := name, gmail_message_id := oracle e,
          is_follow_up := true, follow_up_number := n } now with
      | Except.error msg => Except.error msg
      | Except.ok (st1, _) =>
        match sendWaveGo appId n oracle render now rest st1 with
        | Except.error m => Except.error m
        | Except.ok (st2, c) => Except.ok (st2, c + 1)
    else
      sendWaveGo appId n oracle render now rest st

/-- main.py lines 361-445 for one eligible application: the wave number is
computed once (line 362), then every selected recipient is processed. -/
def sendFollowUpWave (st : Store) (appId : Nat) (oracle : String → Option String)
    (render : Option String → Nat → String × String) (now : Int) :
    Except String (Store × Nat) :=
  let n := getNextFollowUpNumber st appId
  match followUpRecipients st appId with
  | none => Except.ok (st, 0)
  | some recips => sendWaveGo appId n oracle render now recips st

/-! ## Recruiter parsing

Two implementations exist in the repository: the legacy
`recruiter_parser.py` and the reorganized
`src/cv_mailer/parsers/recruiter.py`. Both are embedded below over
`List Char`. The regular expressions are compiled by hand into
deterministic matchers; the analysis of Python `re` semantics justifying
each determinization is recorded at the relevant definition. Character
classes are the ASCII classes written in the source patterns; Python's
`\s`/`strip`/`split` also accept some non-ASCII whitespace, which no input
considered here contains. -/

/-- Python `\s` (ASCII part): space, tab, newline, carriage return,
vertical tab, form feed. -/
def isPySpace (c : Char) : Bool :=
  c = ' ' || c = '\t' || c = '\n' || c = '\r' || c = Char.ofNat 11 || c = Char.ofNat 12

/-- `[a-zA-Z0-9._%+-]` (the local part of the email pattern). -/
def isLocalChar (c : Char) : Bool :=
  c.isAlphanum || c = '.' || c = '_' || c = '%' || c = '+' || c = '-'

/-- `[a-zA-Z0-9.-]` (the domain part of the email pattern). -/
def isDomainChar (c : Char) : Bool :=
  c.isAlphanum || c = '.' || c = '-'

/-- Python `str.strip()`. -/
def pyStrip (s : List Char) : List Char :=
  ((s.dropWhile isPySpace).reverse.dropWhile isPySpace).reverse

/-- `not cell_value or not cell_value.strip()`. -/
def pyStrFalsy (s : List Char) : Bool :=
  s.isEmpty || (pyStrip s).isEmpty

/-- Python `str.split()` (whitespace words, empties dropped), with the
current word accumulated in reverse. -/
def wordsPyAux (s : List Char) (cur : List Char) : List (List Char) :=
  match s with
  | [] => if cur.isEmpty then [] else [cur.reverse]
  | c :: rest =>
    if isPySpace c then
      if cur.isEmpty then wordsPyAux rest []
      else cur.reverse :: wordsPyAux rest []
    else wordsPyAux rest (c :: cur)

/-- `" ".join(cell_value.split())` (recruiter.py line 37). -/
def normalizeCell (s : List Char) : List Char :=
  List.intercalate [' '] (wordsPyAux s [])

/-- Python `str.split(',')`, current segment accumulated in reverse. -/
def splitCommaAux (cur : List Char) : List Char → List (List Char)
  | [] => [cur.reverse]
  | c :: t =>
    if c = ',' then cur.reverse :: splitCommaAux [] t
    else splitCommaAux (c :: cur) t

/-- Python `str.split(',')`. -/
def splitComma (s : List Char) : List (List Char) := splitCommaAux [] s

/-- Largest `d < n` with `p d`, the order in which a greedy `+` backtracks. -/
def findLargestBelow (p : Nat → Bool) : Nat → Option Nat
  | 0 => none
  | n + 1 => if p n then some n else findLargestBelow p n

/-- Valid backtracking stop for `[a-zA-Z0-9.-]+\.[a-zA-Z]{2,}` inside the
maximal domain-character run `dom`: at least one consumed character, a
literal dot at offset `d`, and at least two letters after it. -/
def domOk (dom : List Char) (d : Nat) : Bool :=
  decide (1 ≤ d) && (dom.get? d == some '.') &&
  decide (2 ≤ ((dom.drop (d + 1)).takeWhile Char.isAlpha).length)

/-- Match of `[a-zA-Z0-9._%+-]+@[a-zA-Z0-9.-]+\.[a-zA-Z]{2,}` anchored at
the start of `s`; returns the matched email and the rest of the string.
Deterministic because: the local run must be maximal (the character after
it must be `@`, which is not a local character), the `+`-part of the
domain backtracks from the largest split (`findLargestBelow`), and
`[a-zA-Z]{2,}` greedily takes the whole letter run, which ends the
pattern. -/
def emailAt (s : List Char) : Option (List Char × List Char) :=
  let loc := s.takeWhile isLocalChar
  let r1 := s.dropWhile isLocalChar
  if loc.isEmpty then none
  else
    match r1 with
    | '@' :: r2 =>
      let dom := r2.takeWhile isDomainChar
      match findLargestBelow (domOk dom) dom.length with
      | none => none
      | some d =>
        let letters := (dom.drop (d + 1)).takeWhile Char.isAlpha
        some (loc ++ '@' :: (dom.take d ++ '.' :: letters),
              dom.drop (d + 1 + letters.length) ++ r2.dropWhile isDomainChar)
    | _ => none

/-- `$` with Python semantics: end of string, or just before a final
newline. -/
def dollarEnd (rest : List Char) : Bool :=
  rest.isEmpty || rest == ['\n']

/-- `\s*-\s*EMAIL` anchored at the start of `s` (the tail of the primary
pattern of recruiter.py line 48). Deterministic: whitespace runs are
maximal because neither `-` nor an email's first character is whitespace. -/
def pairTail (s : List Char) : Option (List Char × List Char) :=
  match s.dropWhile isPySpace with
  | '-' :: s2 => emailAt (s2.dropWhile isPySpace)
  | _ => none

/-- The primary pattern `([^,]+?)\s*-\s*EMAIL` at a fixed start position:
the lazy group grows one non-comma character at a time until the tail
matches. Returns (group 1, email, rest after the match). -/
def pairAt (acc : List Char) : List Char → Option (List Char × List Char × List Char)
  | [] => none
  | c :: rest =>
    if c = ',' then none
    else
      match pairTail rest with
      | some (email, rem) => some (acc ++ [c], email, rem)
      | none => pairAt (acc ++ [c]) rest

/-- `re.finditer` of the primary pattern: try each start position left to
right, continue after each match. `fuel` bounds the recursion; every step
consumes at least one character (`pairAt_rest_lt` below), so
`s.length + 1` is always enough. -/
def findPairsGo (fuel : Nat) (s : List Char) : List (List Char × List Char) :=
  match fuel with
  | 0 => []
  | fuel' + 1 =>
    match s with
    | [] => []
    | _ :: tail =>
      match pairAt [] s with
      | some (n, e, rest) => (n, e) :: findPairsGo fuel' rest
      | none => findPairsGo fuel' tail

/-- `re.finditer(r"([^,]+?)\s*-\s*(EMAIL)", cell)` (recruiter.py lines
48-49). -/
def findPairs (s : List Char) : List (List Char × List Char) :=
  findPairsGo (s.length + 1) s

/-- `\s* [dash] \s* EMAIL $` anchored at the start of `s`: tail of the
anchored fallback patterns (`^(.+?)\s*-\s*(EMAIL)$` in
recruiter_parser.py line 46, `^(.+?)\s*[-–—]\s*(EMAIL)$` in recruiter.py
line 67). The greedy email match must end at `$`: any shorter backtracking
choice ends strictly inside a letter or domain run, so checking `dollarEnd`
after the greedy match is exact. -/
def anchoredTail (dashes : List Char) (s : List Char) : Option (List Char) :=
  match s.dropWhile isPySpace with
  | d :: s2 =>
    if d ∈ dashes then
      match emailAt (s2.dropWhile isPySpace) with
      | some (e, rest) => if dollarEnd rest then some e else none
      | none => none
    else none
  | [] => none

/-- `re.match(r"^(.+?)\s*[dash]\s*(EMAIL)$", part)`: the lazy `.+?` prefix
grows one character at a time (never across a newline, which `.` does not
match). Returns (group 1, email). -/
def anchoredAt (dashes : List Char) (acc : List Char) :
    List Char → Option (List Char × List Char)
  | [] => none
  | c :: rest =>
    if c = '\n' then none
    else
      match anchoredTail dashes rest with
      | some e => some (acc ++ [c], e)
      | none => anchoredAt dashes (acc ++ [c]) rest

/-- `re.search(EMAIL, part)`: leftmost email match with its start index. -/
def searchEmailAux (idx : Nat) : List Char → Option (List Char × Nat)
  | [] => none
  | c :: rest =>
    match emailAt (c :: rest) with
    | some (e, _) => some (e, idx)
    | none => searchEmailAux (idx + 1) rest

/-- `re.search(EMAIL, part)` from position 0. -/
def searchEmail (s : List Char) : Option (List Char × Nat) :=
  searchEmailAux 0 s

/-- A parsed `{'name': ..., 'email': ...}` dict. In both parsers every
appended entry carries a (string) email, so `email` is not optional. -/
structure ParsedRecruiter where
  name : Option (List Char)
  email : List Char
deriving DecidableEq

/-- `name if name else None` after `.strip()`. -/
def stripToOpt (s : List Char) : Option (List Char) :=
  let t := pyStrip s
  if t.isEmpty then none else some t

/-- The dash class of the reorganized parser's fallback pattern `[-–—]`. -/
def cvDashes : List Char := ['-', '–', '—']

/-- The dash of the legacy parser's pattern. -/
def legacyDashes : List Char := ['-']

/-- Primary-strategy entries (recruiter.py lines 48-54). -/
def cvPrimaryEntries (cv : List Char) : List ParsedRecruiter :=
  (findPairs cv).map fun p => { name := stripToOpt p.1, email := pyStrip p.2 }

/-- Fallback parsing of one comma segment (recruiter.py lines 61-89):
anchored name-dash-email, else leftmost email with the text before it as
the name (a trailing dash removed), else dropped with a warning. -/
def cvFallbackEntry (part : List Char) : Option ParsedRecruiter :=
  match anchoredAt cvDashes [] part with
  | some (rawName, email) => some { name := stripToOpt rawName, email := email }
  | none =>
    match searchEmail part with
    | some (email, idx) =>
      let before := pyStrip (part.take idx)
      let before2 :=
        if before.getLast? == some '-' then pyStrip before.dropLast else before
      some { name := if before2.isEmpty then none else some before2, email := email }
    | none => none

/-- Case-insensitive first-occurrence deduplication (recruiter.py lines
91-103): entries with a falsy email are dropped with a warning; `seen`
accumulates lower-cased emails. -/
def dedupCaseInsensitiveAux (seen : List (List Char)) :
    List ParsedRecruiter → List ParsedRecruiter
  | [] => []
  | e :: t =>
    if e.email.isEmpty then dedupCaseInsensitiveAux seen t
    else
      let k := e.email.map Char.toLower
      if k ∈ seen then dedupCaseInsensitiveAux seen t
      else e :: dedupCaseInsensitiveAux (k :: seen) t

/-- The `recruiters` list built by `src/cv_mailer/parsers/recruiter.py`
before its deduplication pass (lines 33-89): empty for a falsy cell, else
primary-strategy matches, else the comma-split fallback. -/
def cvRawEntries (cell : List Char) : List ParsedRecruiter :=
  if pyStrFalsy cell then []
  else
    let cv := normalizeCell cell
    let prim := cvPrimaryEntries cv
    if prim.isEmpty then
      ((splitComma cv).map pyStrip).filterMap fun part =>
        if part.isEmpty then none else cvFallbackEntry part
    else prim

/-- `src/cv_mailer/parsers/recruiter.py` `RecruiterParser.parse_recruiters`
(lines 17-105): raw entries followed by the case-insensitive
deduplication (on a falsy cell both sides are the empty list). -/
def cvParseRecruiters (cell : List Char) : List ParsedRecruiter :=
  dedupCaseInsensitiveAux [] (cvRawEntries cell)

/-- Legacy parsing of one comma segment (recruiter_parser.py lines 40-81):
anchored name-dash-email, else leftmost email with the text before it as
the name, else any segment containing `@` kept as a bare email, else
dropped with a warning. -/
def legacyEntry (part : List Char) : Option ParsedRecruiter :=
  match anchoredAt legacyDashes [] part with
  | some (rawName, email) => some { name := stripToOpt rawName, email := email }
  | none =>
    match searchEmail part with
    | some (email, idx) =>
      let before := pyStrip (part.take idx)
      some { name := if before.isEmpty then none else some before, email := email }
    | none =>
      if '@' ∈ part then some { name := none, email := pyStrip part }
      else none

/-- Exact-string first-occurrence deduplication (recruiter_parser.py lines
83-89): note the raw, case-SENSITIVE membership test. -/
def dedupExactAux (seen : List (List Char)) :
    List ParsedRecruiter → List ParsedRecruiter
  | [] => []
  | e :: t =>
    if e.email.isEmpty then dedupExactAux seen t
    else if e.email ∈ seen then dedupExactAux seen t
    else e :: dedupExactAux (e.email :: seen) t

/-- The `recruiters` list built by `recruiter_parser.py` before its
deduplication pass (lines 32-81). -/
def legacyRawEntries (cell : List Char) : List ParsedRecruiter :=
  if pyStrFalsy cell then []
  else
    ((splitComma cell).map pyStrip).filterMap fun part =>
      if part.isEmpty then none else legacyEntry part

/-- `recruiter_parser.py` `RecruiterParser.parse_recruiters` (lines
15-92): raw entries followed by the exact-string deduplication. -/
def legacyParseRecruiters (cell : List Char) : List ParsedRecruiter :=
  dedupExactAux [] (legacyRawEntries cell)

/-- Specification-side first-occurrence deduplication keyed by a function
of the email ("deduplicated by lower-cased email, order-preserving on
first occurrence"): keep each entry whose key has not occurred before,
drop entries with a falsy email. -/
def specFirstOccBy (key : List Char → List Char) (l : List ParsedRecruiter) :
    List ParsedRecruiter :=
  match l with
  | [] => []
  | e :: rest =>
    if e.email.isEmpty then specFirstOccBy key rest
    else e :: specFirstOccBy key (rest.filter fun x => !(key x.email == key e.email))
termination_by l.length
decreasing_by
  · simp
  · exact Nat.lt_succ_of_le (List.length_filter_le _ _)

/-! ## Remaining specification-side definitions -/

/-- Specification-side first-occurrence deduplication of wave recipients,
keyed by the recipient email (falsy emails dropped). -/
def specFirstOccPairs (l : List (String × Option String)) :
    List (String × Option String) :=
  match l with
  | [] => []
  | p :: rest =>
    if p.1.isEmpty then specFirstOccPairs rest
    else p :: specFirstOccPairs (rest.filter fun q => !(q.1 == p.1))
termination_by l.length
decreasing_by
  · simp
  · exact Nat.lt_succ_of_le (List.length_filter_le _ _)

/-- Status of the application with the given id (`None` when absent). -/
def statusOf (st : Store) (appId : Nat) : Option JobStatus :=
  (findApp st appId).map (·.status)

/-- Emails of the application's currently linked recruiters, in link
order. -/
def linkedEmails (st : Store) (appId : Nat) : List String :=
  (linkedRecruitersOf st appId).map (·.email)

/-- The email of a recruiter input when truthy (`None`/`""` dropped,
mirroring `if not email: continue`). -/
def truthyEmail (i : RecruiterInput) : Option String :=
  match i.email with
  | none => none
  | some e => if e.isEmpty then none else some e

/-- First-occurrence deduplication of strings. -/
def firstOccStringsAux (seen : List String) : List String → List String
  | [] => []
  | e :: t =>
    if e ∈ seen then firstOccStringsAux seen t
    else e :: firstOccStringsAux (e :: seen) t

/-- The distinct truthy emails of a recruiter-input list, first occurrence
first: what a full relink is expected to leave linked. -/
def dedupTruthyEmails (inputs : List RecruiterInput) : List String :=
  firstOccStringsAux [] (inputs.filterMap truthyEmail)

/-- Well-formedness of the recruiter table: unique ids below the id
counter, unique emails (the DB enforces `email` UNIQUE; ids are the
primary key), and junction rows referencing only already-allocated
recruiter ids. -/
def recruiterTablesWF (st : Store) : Prop :=
  (st.recruiters.map (·.id)).Nodup ∧
  (∀ r ∈ st.recruiters, r.id < st.nextRecruiterId) ∧
  (st.recruiters.map (·.email)).Nodup ∧
  (∀ l ∈ st.links, l.2 < st.nextRecruiterId)

instance (st : Store) : Decidable (recruiterTablesWF st) := by
  unfold recruiterTablesWF; infer_instance

/-- The records belonging to one application. -/
def recordsOfApp (records : List EmailRecord) (appId : Nat) : List EmailRecord :=
  records.filter (fun r => r.job_application_id == appId)

/-- The log entry `repair_follow_up_numbers` emits for one application:
nothing when the application has no positive sent follow-up waves or its
wave sequence is already dense, else the computed old-to-new mapping. -/
def repairLogEntry (records : List EmailRecord) (appId : Nat) :
    List (Nat × List (Nat × Nat)) :=
  if (waveNumbers records appId).isEmpty then []
  else if waveNumbers records appId =
      List.range' 1 (waveNumbers records appId).length then []
  else [(appId, (waveNumbers records appId).zip
    (List.range' 1 (waveNumbers records appId).length))]

/-! ## Remaining concrete fixtures -/

/-- The empty store (fresh database). -/
def emptyStore : Store where
  apps := []
  recruiters := []
  links := []
  records := []
  nextAppId := 1
  nextRecruiterId := 1
  nextRecordId := 1

/-- C3 counterexample fixture: one sent follow-up record whose
`follow_up_number` is 0. -/
def c3store : Store where
  apps := [baseApp]
  recruiters := []
  links := []
  records := [{ baseRecord with
                id := 1, email_type := EmailType.follow_up, is_follow_up := true,
                follow_up_number := 0, recipient_email := "a@x.com",
                sent_at := some { v := 5, aware := true } }]
  nextAppId := 2
  nextRecruiterId := 1
  nextRecordId := 2

/-- C4 failing fixture: two sent follow-up waves whose numeric order is the
reverse of their chronological order (wave 2 sent at t=100, wave 1 at
t=200). -/
def c4store : Store where
  apps := [baseApp]
  recruiters := []
  links := []
  records := [{ baseRecord with
                id := 1, email_type := EmailType.follow_up, is_follow_up := true,
                follow_up_number := 2, recipient_email := "a@x.com",
                sent_at := some { v := 100, aware := true } },
              { baseRecord with
                id := 2, email_type := EmailType.follow_up, is_follow_up := true,
                follow_up_number := 1, recipient_email := "a@x.com",
                sent_at := some { v := 200, aware := true } }]
  nextAppId := 2
  nextRecruiterId := 1
  nextRecordId := 3

/-- C5 counterexample, first upsert: full fields, one recruiter. -/
def c5args1 : UpsertArgs where
  spreadsheet_row_id := "Sheet1_2"
  company_name := "Acme"
  position := "Engineer"
  recruiters := [{ name := some "Alice", email := some "alice@x.com" }]
  location := some "Berlin"
  job_posting_url := none
  expected_salary := none
  custom_message := none
  sheet_name := some "Sheet1"

/-- C5 counterexample, second upsert: empty company name and empty
recruiter list. -/
def c5args2 : UpsertArgs where
  spreadsheet_row_id := "Sheet1_2"
  company_name := ""
  position := "Engineer"
  recruiters := []
  location := none
  job_posting_url := none
  expected_salary := none
  custom_message := none
  sheet_name := some "Sheet1"

/-- C9/C10 fixture: a lone DRAFT application with no records. -/
def c9store : Store where
  apps := [{ baseApp with status := JobStatus.draft }]
  recruiters := []
  links := []
  records := []
  nextAppId := 2
  nextRecruiterId := 1
  nextRecordId := 1

/-- C9 counterexample arguments: recording a send with NO provider message
id (the record will be PENDING). -/
def c9args : RecordSentArgs where
  job_application_id := 1
  email_type := EmailType.first_contact
  subject := ""
  body := ""
  recipient_email := "a@x.com"
  recipient_name := none
  gmail_message_id := none
  is_follow_up := false
  follow_up_number := 0

/-- C10 witness arguments: recording a send WITH a provider message id. -/
def c10args : RecordSentArgs where
  job_application_id := 1
  email_type := EmailType.first_contact
  subject := ""
  body := ""
  recipient_email := "a@x.com"
  recipient_name := none
  gmail_message_id := some "msg-1"
  is_follow_up := false
  follow_up_number := 0

/-- C6 fixture: app 1 with first contact sent to two recipients and one of
them already holding follow-up number 1. -/
def c6store : Store where
  apps := [baseApp]
  recruiters := []
  links := []
  records := [{ baseRecord with
                id := 1, recipient_email := "a@x.com",
                sent_at := some { v := 10, aware := true } },
              { baseRecord with
                id := 2, recipient_email := "b@x.com",
                sent_at := some { v := 11, aware := true } },
              { baseRecord with
                id := 3, recipient_email := "a@x.com",
                email_type := EmailType.follow_up, is_follow_up := true,
                follow_up_number := 1, sent_at := some { v := 20, aware := true } }]
  nextAppId := 2
  nextRecruiterId := 1
  nextRecordId := 4

/-- An always-successful send oracle. -/
def c6oracle : String → Option String := fun _ => some "mid-1"

/-- A trivial template renderer (templating is an external collaborator). -/
def c6render : Option String → Nat → String × String := fun _ _ => ("s", "b")

/-- C8 witness environment: every attempt hits lock contention. -/
def c8outcomes : Nat → RateAttemptOutcome := fun _ => RateAttemptOutcome.lockedError

/-- The status-update function applied by `record_email_sent` on a DRAFT
application (tracker.py lines 152-154). -/
def draftFlip (now : Int) : JobApplication → JobApplication := fun x =>
  { x with
    status := JobStatus.reached_out,
    applied_at := some { v := now, aware := true } }

/-! # Theorems -/

/-! ## Generic list helpers -/

theorem takeDrop_length {α : Type} (p : α → Bool) (l : List α) :
    (l.takeWhile p).length + (l.dropWhile p).length = l.length := by
  conv_rhs => rw [← List.takeWhile_append_dropWhile p l]
  exact (List.length_append _ _).symm

theorem dropWhile_length_le {α : Type} (p : α → Bool) (l : List α) :
    (l.dropWhile p).length ≤ l.length :=
  (List.dropWhile_sublist p).length_le

theorem foldrMax_mem (l : List Nat) (h : l ≠ []) : l.foldr max 0 ∈ l := by
  induction l with
  | nil => exact absurd rfl h
  | cons x t ih =>
    cases t with
    | nil => simp
    | cons y u =>
      have hm := ih (by simp)
      have hfold : (x :: y :: u).foldr max 0 = max x ((y :: u).foldr max 0) := rfl
      rcases max_choice x ((y :: u).foldr max 0) with h1 | h1
      · rw [hfold, h1]; exact List.mem_cons_self _ _
      · rw [hfold, h1]; exact List.mem_cons_of_mem _ hm

theorem foldrMax_ub (l : List Nat) : ∀ n ∈ l, n ≤ l.foldr max 0 := by
  induction l with
  | nil => intro n hn; cases hn
  | cons x t ih =>
    intro n hn
    rcases List.mem_cons.mp hn with rfl | hn
    · exact Nat.le_max_left _ _
    · exact le_trans (ih n hn) (Nat.le_max_right _ _)

/-! ## Fuel sufficiency of the `finditer` embedding -/

theorem emailAt_rest_lt (s e rest : List Char) (h : emailAt s = some (e, rest)) :
    rest.length < s.length := by
  simp only [emailAt] at h
  split at h
  · exact absurd h (by simp)
  · rename_i hne
    split at h
    · rename_i r2 heq
      split at h
      · exact absurd h (by simp)
      · rename_i d hd
        simp only [Option.some.injEq, Prod.mk.injEq] at h
        obtain ⟨-, hr2⟩ := h
        have h1 : rest.length ≤
            (r2.takeWhile isDomainChar).length + (r2.dropWhile isDomainChar).length := by
          rw [← hr2, List.length_append, List.length_drop]
          omega
        have h2 : (r2.takeWhile isDomainChar).length + (r2.dropWhile isDomainChar).length
            = r2.length := takeDrop_length _ _
        have h3 : r2.length < (s.dropWhile isLocalChar).length := by
          rw [heq]; simp
        have h4 : (s.dropWhile isLocalChar).length ≤ s.length := dropWhile_length_le _ _
        omega
    · exact absurd h (by simp)

theorem pairTail_rest_lt (s e rest : List Char) (h : pairTail s = some (e, rest)) :
    rest.length < s.length := by
  unfold pairTail at h
  split at h
  · rename_i s2 heq
    have h1 := emailAt_rest_lt _ _ _ h
    have h2 : (s2.dropWhile isPySpace).length ≤ s2.length := dropWhile_length_le _ _
    have h3 : s2.length < (s.dropWhile isPySpace).length := by rw [heq]; simp
    have h4 : (s.dropWhile isPySpace).length ≤ s.length := dropWhile_length_le _ _
    omega
  · exact absurd h (by simp)

theorem pairAt_rest_lt (acc s n e rest : List Char)
    (h : pairAt acc s = some (n, e, rest)) : rest.length < s.length := by
  induction s generalizing acc with
  | nil => exact absurd h (by simp [pairAt])
  | cons c t ih =>
    unfold pairAt at h
    split at h
    · exact absurd h (by simp)
    · split at h
      · rename_i e0 rem heq
        simp only [Option.some.injEq, Prod.mk.injEq] at h
        obtain ⟨-, -, h3⟩ := h
        have hlt := pairTail_rest_lt t e0 rem heq
        rw [← h3]
        simp only [List.length_cons]
        omega
      · have := ih (acc ++ [c]) h
        simp only [List.length_cons]
        omega

/-! ## C1: next follow-up number -/

/-- C1: `get_next_follow_up_number` returns the maximum `follow_up_number`
over the application's sent follow-up records plus 1 (1 when no such
record exists); on the two-recruiter fixture with one follow-up wave sent
to both recipients it returns 2, not 3. -/
theorem next_follow_up_number_is_max_plus_one :
    (∀ (st : Store) (appId : Nat),
      (sentFollowUpNumbers st.records appId = [] →
        getNextFollowUpNumber st appId = 1) ∧
      (sentFollowUpNumbers st.records appId ≠ [] →
        maxSentFollowUpNumber st.records appId ∈ sentFollowUpNumbers st.records appId ∧
        (∀ n ∈ sentFollowUpNumbers st.records appId,
          n ≤ maxSentFollowUpNumber st.records appId) ∧
        getNextFollowUpNumber st appId =
          maxSentFollowUpNumber st.records appId + 1)) ∧
    getNextFollowUpNumber c1store 1 = 2 ∧ getNextFollowUpNumber c1store 1 ≠ 3 := by
  refine ⟨fun st appId => ⟨fun h => ?_, fun h => ?_⟩, by decide, by decide⟩
  · unfold getNextFollowUpNumber maxSentFollowUpNumber
    rw [h]; rfl
  · exact ⟨foldrMax_mem _ h, foldrMax_ub _, rfl⟩

/-- Witness for C1 at the two-recruiter fixture. -/
theorem next_follow_up_number_is_max_plus_one_witness :
    maxSentFollowUpNumber c1store.records 1 ∈ sentFollowUpNumbers c1store.records 1 ∧
    getNextFollowUpNumber c1store 1 = maxSentFollowUpNumber c1store.records 1 + 1 := by
  have h := (next_follow_up_number_is_max_plus_one.1 c1store 1).2 (by decide)
  exact ⟨h.1, h.2.2⟩

/-! ## C8: rate-limit check fails open -/

theorem checkRateLimitGo_locked (limit : Nat) (outcomes : Nat → RateAttemptOutcome)
    (hall : ∀ a, outcomes a = RateAttemptOutcome.lockedError) :
    ∀ (rem attempt : Nat),
      checkRateLimitGo limit outcomes attempt rem =
        (true, (List.range' attempt (rem - 1)).map (fun a => 50 * 2 ^ a)) := by
  intro rem
  induction rem with
  | zero => intro attempt; simp [checkRateLimitGo]
  | succ r ih =>
    intro attempt
    unfold checkRateLimitGo
    rw [hall attempt]
    cases r with
    | zero => rfl
    | succ r2 =>
      have hne : ((r2 + 1 : Nat) == 0) = false := by simp
      rw [hne, if_neg (by simp), ih (attempt + 1)]
      have hr : List.range' attempt (r2 + 1 + 1 - 1) =
          attempt :: List.range' (attempt + 1) (r2 + 1 - 1) := by
        have h2 : (r2 + 1 + 1 - 1) = (r2 + 1 - 1) + 1 := by omega
        rw [h2, List.range'_succ]
      rw [hr, List.map_cons]

theorem checkRateLimitGo_other (limit : Nat) (outcomes : Nat → RateAttemptOutcome) :
    ∀ (rem attempt k : Nat), attempt ≤ k → k < attempt + rem →
      (∀ a, attempt ≤ a → a < k → outcomes a = RateAttemptOutcome.lockedError) →
      outcomes k = RateAttemptOutcome.otherError →
      (checkRateLimitGo limit outcomes attempt rem).1 = true := by
  intro rem
  induction rem with
  | zero => intro attempt k h1 h2; omega
  | succ r ih =>
    intro attempt k h1 h2 hlock hk
    unfold checkRateLimitGo
    rcases Nat.eq_or_lt_of_le h1 with rfl | hlt
    · rw [hk]
    · rw [hlock attempt (le_refl _) hlt]
      cases hr : (r == 0) with
      | true => simp
      | false =>
        simp only [hr, if_false]
        exact ih (attempt + 1) k hlt (by omega) (fun a ha hb => hlock a (by omega) hb) hk

/-- C8: when every attempt of the rate-limit check raises lock contention,
the check retries its bounded attempt count with exponentially doubling
backoff sleeps and then returns "allowed" (fail-open); it also returns
"allowed" as soon as any other unexpected error occurs. -/
theorem rate_limit_check_fails_open :
    (∀ (limit : Nat) (outcomes : Nat → RateAttemptOutcome) (n : Nat),
      (∀ a, outcomes a = RateAttemptOutcome.lockedError) →
      (checkRateLimit limit outcomes n).1 = true ∧
      (checkRateLimit limit outcomes n).2 =
        (List.range' 0 (n - 1)).map (fun a => 50 * 2 ^ a) ∧
      (∀ i, i + 1 < n - 1 →
        (checkRateLimit limit outcomes n).2[i + 1]? =
          ((checkRateLimit limit outcomes n).2[i]?).map (fun w => 2 * w))) ∧
    (∀ (limit : Nat) (outcomes : Nat → RateAttemptOutcome) (n k : Nat),
      k < n → (∀ a, a < k → outcomes a = RateAttemptOutcome.lockedError) →
      outcomes k = RateAttemptOutcome.otherError →
      (checkRateLimit limit outcomes n).1 = true) := by
  constructor
  · intro limit outcomes n hall
    have h := checkRateLimitGo_locked limit outcomes hall n 0
    unfold checkRateLimit
    rw [h]
    refine ⟨rfl, rfl, fun i hi => ?_⟩
    rw [List.getElem?_map, List.getElem?_map,
      List.getElem?_range' _ _ (by omega : i + 1 < n - 1),
      List.getElem?_range' _ _ (by omega : i < n - 1)]
    simp only [Option.map_some', Option.some.injEq, Nat.zero_add, one_mul]
    rw [pow_succ]
    ring
  · intro limit outcomes n k hk hlock hother
    exact checkRateLimitGo_other limit outcomes n 0 k (Nat.zero_le _) (by omega)
      (fun a _ hb => hlock a hb) hother

/-- Witness for C8: three all-locked attempts yield "allowed" with backoff
sleeps of 50ms and 100ms. -/
theorem rate_limit_check_fails_open_witness :
    (checkRateLimit 50 c8outcomes 3).1 = true ∧
    (checkRateLimit 50 c8outcomes 3).2 = [50, 100] := by
  have h := rate_limit_check_fails_open.1 50 c8outcomes 3 (fun _ => rfl)
  exact ⟨h.1, by rw [h.2.1]; rfl⟩

/-! ## Helper lemmas about record insertion and app updates -/

theorem filter_append_one {α : Type} (p : α → Bool) (l : List α) (x : α)
    (hx : p x = false) : (l ++ [x]).filter p = l.filter p := by
  rw [List.filter_append]
  simp [List.filter, hx]

theorem linkOneRecruiter_apps (appId : Nat) (st : Store) (i : RecruiterInput) :
    (linkOneRecruiter appId st i).apps = st.apps := by
  unfold linkOneRecruiter
  split
  · rfl
  · split
    · rfl
    · split
      · split <;> rfl
      · rfl

theorem linkFold_apps (appId : Nat) (inputs : List RecruiterInput) :
    ∀ st : Store, (inputs.foldl (linkOneRecruiter appId) st).apps = st.apps := by
  induction inputs with
  | nil => intro st; rfl
  | cons i t ih =>
    intro st
    rw [List.foldl_cons, ih, linkOneRecruiter_apps]

theorem linkRecruiters_apps (st : Store) (appId : Nat) (inputs : List RecruiterInput) :
    (linkRecruitersToApplication st appId inputs).apps = st.apps := by
  unfold linkRecruitersToApplication
  split
  · rfl
  · rw [linkFold_apps]

theorem find_updateFirstAppById (apps : List JobApplication) (appId : Nat)
    (f : JobApplication → JobApplication) (hf : ∀ a, (f a).id = a.id) (i : Nat) :
    (updateFirstAppById apps appId f).find? (fun a => a.id == i) =
      if i = appId then (apps.find? (fun a => a.id == appId)).map f
      else apps.find? (fun a => a.id == i) := by
  induction apps with
  | nil => unfold updateFirstAppById; simp
  | cons a t ih =>
    unfold updateFirstAppById
    by_cases ha : a.id = appId
    · rw [if_pos (by simp [ha])]
      by_cases hi : i = appId
      · subst hi
        rw [if_pos rfl, List.find?_cons_of_pos _ (by simp [hf, ha]),
          List.find?_cons_of_pos _ (by simp [ha]), Option.map_some']
      · rw [if_neg hi, List.find?_cons_of_neg _ (by simp [hf, ha, Ne.symm]; omega),
          List.find?_cons_of_neg _ (by simp [ha]; omega)]
    · rw [if_neg (by simp [ha])]
      by_cases hai : a.id = i
      · rw [List.find?_cons_of_pos (updateFirstAppById t appId f) (by simp [hai])]
        by_cases hi : i = appId
        · subst hi; exact absurd hai ha
        · rw [if_neg hi, List.find?_cons_of_pos _ (by simp [hai])]
      · rw [List.find?_cons_of_neg _ (by simp [hai]), ih]
        by_cases hi : i = appId
        · rw [if_pos hi, if_pos hi, List.find?_cons_of_neg _ (by simp [ha])]
        · rw [if_neg hi, if_neg hi, List.find?_cons_of_neg _ (by simp [hai])]

theorem replaceFirst_status (apps : List JobApplication) (rowId : String)
    (u app : JobApplication) (hfind : apps.find? (fun a => a.spreadsheet_row_id == rowId) = some app)
    (hid : u.id = app.id) (hst : u.status = app.status) (i : Nat) :
    ((replaceFirstApp apps rowId u).find? (fun a => a.id == i)).map (·.status) =
      (apps.find? (fun a => a.id == i)).map (·.status) := by
  induction apps with
  | nil => simp at hfind
  | cons a t ih =>
    unfold replaceFirstApp
    by_cases ha : a.spreadsheet_row_id = rowId
    · rw [if_pos (by simp [ha])]
      rw [List.find?_cons_of_pos _ (by simp [ha])] at hfind
      obtain rfl : a = app := by simpa using hfind
      by_cases hai : a.id = i
      · rw [List.find?_cons_of_pos _ (by simp [hid, hai]),
          List.find?_cons_of_pos _ (by simp [hai]), Option.map_some', Option.map_some', hst]
      · rw [List.find?_cons_of_neg _ (by simp [hid, hai]),
          List.find?_cons_of_neg _ (by simp [hai])]
    · rw [if_neg (by simp [ha])]
      rw [List.find?_cons_of_neg _ (by simp [ha])] at hfind
      by_cases hai : a.id = i
      · rw [List.find?_cons_of_pos _ (by simp [hai]), List.find?_cons_of_pos _ (by simp [hai])]
      · rw [List.find?_cons_of_neg _ (by simp [hai]), List.find?_cons_of_neg _ (by simp [hai]),
          ih hfind]

/-! ## C10: pending records are invisible to SENT-filtered queries -/

/-- C10: the `EmailRecord` created by `record_email_sent` has status SENT
and a non-null `sent_at` exactly when a truthy provider message id was
supplied (Python truthiness: `None` and `""` are falsy); without one the
record is PENDING with NULL `sent_at` and is invisible to follow-up
eligibility, numbering and repair, which all filter on status SENT. -/
theorem record_email_sent_pending_invisible :
    ∀ (st : Store) (a : RecordSentArgs) (now : Int) (st' : Store) (r : EmailRecord),
      recordEmailSent st a now = Except.ok (st', r) →
      (r.status = EmailStatus.sent ↔ pyTruthyStr a.gmail_message_id = true) ∧
      (r.sent_at ≠ none ↔ pyTruthyStr a.gmail_message_id = true) ∧
      (pyTruthyStr a.gmail_message_id = true →
        r.sent_at = some { v := now, aware := true }) ∧
      (pyTruthyStr a.gmail_message_id = false →
        r.status = EmailStatus.pending ∧ r.sent_at = none ∧
        (∀ i, sentRecordsOf st'.records i = sentRecordsOf st.records i) ∧
        (∀ i, lastSentEmail st'.records i = lastSentEmail st.records i) ∧
        (∀ i, sentFollowUpNumbers st'.records i = sentFollowUpNumbers st.records i) ∧
        (∀ i, getNextFollowUpNumber st' i = getNextFollowUpNumber st i) ∧
        (∀ i, waveNumbers st'.records i = waveNumbers st.records i) ∧
        repairAppIds st'.records = repairAppIds st.records) := by
  intro st a now st' r h
  cases hfind : findApp st a.job_application_id with
  | none => rw [recordEmailSent, hfind] at h; exact absurd h (by simp)
  | some app =>
    rw [recordEmailSent, hfind] at h
    simp only [Except.ok.injEq, Prod.mk.injEq] at h
    obtain ⟨hst, hr⟩ := h
    cases htr : pyTruthyStr a.gmail_message_id with
    | true =>
      refine ⟨?_, ?_, ?_, by simp⟩
      · rw [← hr]; simp [htr]
      · rw [← hr]; simp [htr]
      · intro _; rw [← hr]; simp [htr]
    | false =>
      have hrstatus : r.status = EmailStatus.pending := by rw [← hr]; simp [htr]
      have hrsent : r.sent_at = none := by rw [← hr]; simp [htr]
      have hrecords : st'.records = st.records ++ [r] := by rw [← hst, ← hr]
      have hsent : ∀ i, sentRecordsOf st'.records i = sentRecordsOf st.records i := by
        intro i
        unfold sentRecordsOf
        rw [hrecords, filter_append_one _ _ _ (by simp [hrstatus])]
      have hfu : ∀ i, sentFollowUpNumbers st'.records i = sentFollowUpNumbers st.records i := by
        intro i
        unfold sentFollowUpNumbers
        rw [hrecords, filter_append_one _ _ _ (by simp [hrstatus])]
      have hpos : ∀ i, followUpSentPos st'.records i = followUpSentPos st.records i := by
        intro i
        unfold followUpSentPos
        rw [hrecords, filter_append_one _ _ _ (by simp [hrstatus])]
      refine ⟨by simp [hrstatus, htr], by simp [hrsent, htr], by simp [htr],
        fun _ => ⟨hrstatus, hrsent, hsent, ?_, hfu, ?_, ?_, ?_⟩⟩
      · intro i; unfold lastSentEmail; rw [hsent i]
      · intro i
        unfold getNextFollowUpNumber maxSentFollowUpNumber
        rw [hfu i]
      · intro i
        have hmin : minSentAtOfWave st'.records i = minSentAtOfWave st.records i := by
          funext n
          unfold minSentAtOfWave
          rw [hpos i]
        unfold waveNumbers
        rw [hpos i, hmin]
      · unfold repairAppIds
        rw [hrecords, filter_append_one _ _ _ (by simp [hrstatus])]

/-- Witness for C10 at the concrete fixture: recording a send without a
message id yields a PENDING unstamped record that leaves the next
follow-up number unchanged. -/
theorem record_email_sent_pending_invisible_witness :
    ∃ p : Store × EmailRecord,
      recordEmailSent c9store c9args 7 = Except.ok p ∧
      p.2.status = EmailStatus.pending ∧ p.2.sent_at = none ∧
      getNextFollowUpNumber p.1 1 = getNextFollowUpNumber c9store 1 := by
  obtain ⟨p, hp⟩ : ∃ p, recordEmailSent c9store c9args 7 = Except.ok p := ⟨_, rfl⟩
  have h2 := (record_email_sent_pending_invisible c9store c9args 7 p.1 p.2
    (by rw [hp])).2.2.2 (by decide)
  exact ⟨p, hp, h2.1, h2.2.1, h2.2.2.2.2.2.1 1⟩

/-! ## C9: status transitions -/

theorem recordEmailSent_status (st : Store) (a : RecordSentArgs) (now : Int)
    (st' : Store) (r : EmailRecord)
    (h : recordEmailSent st a now = Except.ok (st', r)) :
    (statusOf st a.job_application_id = some JobStatus.draft →
      statusOf st' a.job_application_id = some JobStatus.reached_out ∧
      (findApp st' a.job_application_id).map (·.applied_at) =
        some (some { v := now, aware := true })) ∧
    (∀ s, statusOf st a.job_application_id = some s → s ≠ JobStatus.draft →
      statusOf st' a.job_application_id = some s) ∧
    (∀ i, i ≠ a.job_application_id → statusOf st' i = statusOf st i) := by
  cases hfind : findApp st a.job_application_id with
  | none => rw [recordEmailSent, hfind] at h; exact absurd h (by simp)
  | some app =>
    rw [recordEmailSent, hfind] at h
    simp only [Except.ok.injEq, Prod.mk.injEq] at h
    obtain ⟨hst, -⟩ := h
    have hfind2 : st.apps.find? (fun x => x.id == a.job_application_id) = some app := hfind
    have happs : st'.apps =
        if app.status == JobStatus.draft then
          updateFirstAppById st.apps a.job_application_id (draftFlip now)
        else st.apps := by
      rw [← hst]; rfl
    have hfl : ∀ x : JobApplication, (draftFlip now x).id = x.id := fun _ => rfl
    refine ⟨?_, ?_, ?_⟩
    · intro hdraft
      have happst : app.status = JobStatus.draft := by
        rw [statusOf, hfind] at hdraft
        simpa using hdraft
      constructor
      · rw [statusOf, findApp, happs, if_pos (by simp [happst]),
          find_updateFirstAppById _ _ _ hfl, if_pos rfl, hfind2]
        rfl
      · rw [findApp, happs, if_pos (by simp [happst]),
          find_updateFirstAppById _ _ _ hfl, if_pos rfl, hfind2]
        rfl
    · intro s hs hns
      have happst : app.status = s := by
        rw [statusOf, hfind] at hs
        simpa using hs
      have hbeq : (app.status == JobStatus.draft) = false := by
        simp only [beq_eq_false_iff_ne, ne_eq, happst]
        exact hns
      rw [statusOf, findApp, happs, if_neg (by simp [hbeq])]
      exact hs
    · intro i hi
      rw [statusOf, findApp, happs]
      by_cases hd : (app.status == JobStatus.draft) = true
      · rw [if_pos hd, find_updateFirstAppById _ _ _ hfl, if_neg hi]
        rfl
      · rw [if_neg hd]
        rfl

theorem recordEmailFailed_status (st : Store) (appId : Nat) (etype : EmailType)
    (sub bod re : String) (rn : Option String) (em : String) (now : Int)
    (st' : Store) (h : recordEmailFailed st appId etype sub bod re rn em now = Except.ok st') :
    ∀ i, statusOf st' i = statusOf st i := by
  intro i
  cases hfind : findApp st appId with
  | none => rw [recordEmailFailed, hfind] at h; exact absurd h (by simp)
  | some app =>
    rw [recordEmailFailed, hfind] at h
    simp only [Except.ok.injEq] at h
    rw [← h]
    rfl

theorem upsert_preserves_status (st : Store) (args : UpsertArgs) (now : Int)
    (i : Nat) (s : JobStatus) (hs : statusOf st i = some s) :
    statusOf (getOrCreateJobApplication st args now).1 i = some s := by
  unfold getOrCreateJobApplication
  cases hfind : st.apps.find? (fun a => a.spreadsheet_row_id == args.spreadsheet_row_id) with
  | some app =>
    simp only [hfind]
    have hrepl := replaceFirst_status st.apps args.spreadsheet_row_id
      { app with
        company_name := args.company_name,
        position := args.position,
        location := pyOrStr args.location app.location,
        job_posting_url := pyOrStr args.job_posting_url app.job_posting_url,
        expected_salary := pyOrStr args.expected_salary app.expected_salary,
        custom_message := pyOrStr args.custom_message app.custom_message,
        updated_at := some { v := now, aware := false } }
      app hfind rfl rfl i
    rw [statusOf, findApp, linkRecruiters_apps]
    rw [show ({ st with
      apps := replaceFirstApp st.apps args.spreadsheet_row_id _ } : Store).apps =
        replaceFirstApp st.apps args.spreadsheet_row_id _ from rfl]
    rw [hrepl]
    exact hs
  | none =>
    simp only [hfind]
    rw [statusOf, findApp, linkRecruiters_apps]
    rw [statusOf, findApp] at hs
    cases hfa : st.apps.find? (fun a => a.id == i) with
    | none => rw [hfa] at hs; exact absurd hs (by simp)
    | some b =>
      rw [hfa] at hs
      rw [show ({ st with
        apps := st.apps ++ [_], nextAppId := st.nextAppId + 1 } : Store).apps =
          st.apps ++ [_] from rfl]
      rw [List.find?_append, hfa]
      exact hs

theorem updateJobStatus_sets_status (st : Store) (appId : Nat) (s : JobStatus)
    (notes : Option String) (now : Int) (st' : Store)
    (h : updateJobStatus st appId s notes now = Except.ok st') :
    statusOf st' appId = some s := by
  cases hfind : findApp st appId with
  | none => rw [updateJobStatus, hfind] at h; exact absurd h (by simp)
  | some app =>
    rw [updateJobStatus, hfind] at h
    simp only [Except.ok.injEq] at h
    have hfind2 : st.apps.find? (fun x => x.id == appId) = some app := hfind
    have hfl : ∀ a : JobApplication,
        ((fun a : JobApplication =>
          let a1 := { a with status := s, updated_at := some { v := now, aware := true } }
          let a2 := if pyTruthyStr notes then { a1 with notes := notes } else a1
          if s == JobStatus.closed then
            { a2 with closed_at := some { v := now, aware := true } }
          else a2) a).id = a.id := by
      intro a
      dsimp only
      split <;> split <;> rfl
    rw [statusOf, findApp, ← h,
      show ({ st with apps := updateFirstAppById st.apps appId _ } : Store).apps =
        updateFirstAppById st.apps appId _ from rfl,
      find_updateFirstAppById _ _ _ hfl, if_pos rfl, hfind2]
    dsimp only [Option.map_some']
    split <;> split <;> rfl

/-- C9 counterexample: on a DRAFT application, `record_email_sent` with NO
provider message id (an unsuccessful send: the record is created PENDING)
still flips the status to REACHED_OUT -- so the transition does not happen
"exactly on the first successful send". -/
theorem draft_flips_on_pending_send_cex :
    (recordEmailSent c9store c9args 7).toOption.map
      (fun p => (statusOf p.1 1, p.2.status, p.2.gmail_message_id)) =
      some (some JobStatus.reached_out, EmailStatus.pending, none) ∧
    statusOf c9store 1 = some JobStatus.draft := by decide

/-- C9 (amended): `record_email_sent` moves a DRAFT application to
REACHED_OUT and stamps `applied_at` on the first recorded send attempt --
successful or not (with or without a provider message id); it never
changes the status of an application not in DRAFT (in particular follow-up
recordings leave REACHED_OUT/APPLIED unchanged) and never touches other
applications; `record_email_failed` and `get_or_create_job_application`
never change any application's status; and `update_job_status` (the
explicit API, also invoked by `record_response`) sets exactly the
requested status. -/
theorem status_transitions :
    (∀ (st : Store) (a : RecordSentArgs) (now : Int) (st' : Store) (r : EmailRecord),
      recordEmailSent st a now = Except.ok (st', r) →
      (statusOf st a.job_application_id = some JobStatus.draft →
        statusOf st' a.job_application_id = some JobStatus.reached_out ∧
        (findApp st' a.job_application_id).map (·.applied_at) =
          some (some { v := now, aware := true })) ∧
      (∀ s, statusOf st a.job_application_id = some s → s ≠ JobStatus.draft →
        statusOf st' a.job_application_id = some s) ∧
      (∀ i, i ≠ a.job_application_id → statusOf st' i = statusOf st i)) ∧
    (∀ (st : Store) (appId : Nat) (etype : EmailType) (sub bod re : String)
        (rn : Option String) (em : String) (now : Int) (st' : Store),
      recordEmailFailed st appId etype sub bod re rn em now = Except.ok st' →
      ∀ i, statusOf st' i = statusOf st i) ∧
    (∀ (st : Store) (args : UpsertArgs) (now : Int) (i : Nat) (s : JobStatus),
      statusOf st i = some s →
      statusOf (getOrCreateJobApplication st args now).1 i = some s) ∧
    (∀ (st : Store) (appId : Nat) (s : JobStatus) (notes : Option String)
        (now : Int) (st' : Store),
      updateJobStatus st appId s notes now = Except.ok st' →
      statusOf st' appId = some s) :=
  ⟨recordEmailSent_status,
   recordEmailFailed_status,
   fun st args now i s hs => upsert_preserves_status st args now i s hs,
   updateJobStatus_sets_status⟩

/-- Witness for C9 at the concrete fixture: a recorded send on a DRAFT
application flips it to REACHED_OUT. -/
theorem status_transitions_witness :
    ∃ p : Store × EmailRecord,
      recordEmailSent c9store c10args 7 = Except.ok p ∧
      statusOf p.1 1 = some JobStatus.reached_out := by
  obtain ⟨p, hp⟩ : ∃ p, recordEmailSent c9store c10args 7 = Except.ok p := ⟨_, rfl⟩
  have h := ((status_transitions.1 c9store c10args 7 p.1 p.2 (by rw [hp])).1 (by decide)).1
  exact ⟨p, hp, h⟩
/-! ## C2: follow-up eligibility -/

theorem optTimeLe_refl (a : Option Int) : optTimeLe a a = true := by
  cases a <;> simp [optTimeLe]

theorem optTimeLe_total (a b : Option Int) :
    optTimeLe a b = true ∨ optTimeLe b a = true := by
  cases a <;> cases b <;> (simp [optTimeLe]; try omega)

theorem optTimeLe_trans (a b c : Option Int) (h1 : optTimeLe a b = true)
    (h2 : optTimeLe b c = true) : optTimeLe a c = true := by
  cases a <;> cases b <;> cases c <;> (simp [optTimeLe] at *; try omega)

theorem pickMax_none_iff (l : List EmailRecord) :
    pickMaxBySentAt l = none ↔ l = [] := by
  cases l with
  | nil => simp [pickMaxBySentAt]
  | cons r t =>
    constructor
    · intro h
      simp only [pickMaxBySentAt] at h
      cases ht : pickMaxBySentAt t <;> simp only [ht] at h
      · cases h
      · split at h <;> cases h
    · intro h; simp at h

theorem pickMax_spec (l : List EmailRecord) (r : EmailRecord)
    (h : pickMaxBySentAt l = some r) :
    r ∈ l ∧ ∀ x ∈ l, optTimeLe (timeKey x) (timeKey r) = true := by
  induction l generalizing r with
  | nil => exact absurd h (by simp [pickMaxBySentAt])
  | cons a t ih =>
    simp only [pickMaxBySentAt] at h
    cases ht : pickMaxBySentAt t with
    | none =>
      simp only [ht, Option.some.injEq] at h
      subst h
      have : t = [] := (pickMax_none_iff t).mp ht
      subst this
      refine ⟨List.mem_cons_self _ _, ?_⟩
      intro x hx
      rcases List.mem_cons.mp hx with rfl | hx
      · exact optTimeLe_refl _
      · cases hx
    | some b =>
      simp only [ht] at h
      obtain ⟨hbmem, hbub⟩ := ih b ht
      by_cases hlt : optTimeLt (timeKey a) (timeKey b) = true
      · rw [if_pos hlt] at h
        obtain rfl : b = r := by simpa using h
        refine ⟨List.mem_cons_of_mem _ hbmem, ?_⟩
        intro x hx
        rcases List.mem_cons.mp hx with rfl | hx
        · have h2 := hlt
          unfold optTimeLt at h2
          rw [Bool.and_eq_true] at h2
          exact h2.1
        · exact hbub x hx
      · rw [if_neg hlt] at h
        obtain rfl : a = r := by simpa using h
        have hba : optTimeLe (timeKey b) (timeKey a) = true := by
          unfold optTimeLt at hlt
          rcases optTimeLe_total (timeKey a) (timeKey b) with hab | hba2
          · by_cases hba : optTimeLe (timeKey b) (timeKey a) = true
            · exact hba
            · exact absurd (by simp [hab, hba]) hlt
          · exact hba2
        refine ⟨List.mem_cons_self _ _, ?_⟩
        intro x hx
        rcases List.mem_cons.mp hx with rfl | hx
        · exact optTimeLe_refl _
        · exact optTimeLe_trans _ _ _ (hbub x hx) hba

theorem listMaxInt_none_iff (l : List Int) : listMaxInt l = none ↔ l = [] := by
  cases l with
  | nil => simp [listMaxInt]
  | cons x t =>
    simp only [listMaxInt]
    cases listMaxInt t <;> simp

theorem listMaxInt_mem (l : List Int) (m : Int) (h : listMaxInt l = some m) :
    m ∈ l := by
  induction l generalizing m with
  | nil => exact absurd h (by simp [listMaxInt])
  | cons x t ih =>
    simp only [listMaxInt] at h
    cases ht : listMaxInt t with
    | none =>
      rw [ht] at h
      obtain rfl : x = m := by simpa using h
      exact List.mem_cons_self _ _
    | some mt =>
      rw [ht] at h
      obtain rfl : max x mt = m := by simpa using h
      rcases max_choice x mt with h1 | h1 <;> rw [h1]
      · exact List.mem_cons_self _ _
      · exact List.mem_cons_of_mem _ (ih mt ht)

theorem listMaxInt_ub (l : List Int) (m : Int) (h : listMaxInt l = some m) :
    ∀ x ∈ l, x ≤ m := by
  induction l generalizing m with
  | nil => intro x hx; cases hx
  | cons y t ih =>
    intro x hx
    simp only [listMaxInt] at h
    cases ht : listMaxInt t with
    | none =>
      rw [ht] at h
      obtain rfl : y = m := by simpa using h
      have : t = [] := (listMaxInt_none_iff t).mp ht
      subst this
      rcases List.mem_cons.mp hx with rfl | hx
      · exact le_refl _
      · cases hx
    | some mt =>
      rw [ht] at h
      obtain rfl : max y mt = m := by simpa using h
      rcases List.mem_cons.mp hx with rfl | hx
      · exact le_max_left _ _
      · exact le_trans (ih mt ht x hx) (le_max_right _ _)

theorem listMaxInt_eq_of (l : List Int) (v : Int) (hv : v ∈ l)
    (hub : ∀ w ∈ l, w ≤ v) : listMaxInt l = some v := by
  induction l with
  | nil => cases hv
  | cons x t ih =>
    simp only [listMaxInt]
    cases ht : listMaxInt t with
    | none =>
      have : t = [] := (listMaxInt_none_iff t).mp ht
      subst this
      rcases List.mem_cons.mp hv with rfl | hv
      · rfl
      · cases hv
    | some mt =>
      have hmt : mt ≤ v := hub mt (List.mem_cons_of_mem _ (listMaxInt_mem t mt ht))
      have hx : x ≤ v := hub x (List.mem_cons_self _ _)
      rcases List.mem_cons.mp hv with rfl | hv
      · simp [max_eq_left hmt]
      · have hvmt : v ≤ mt := listMaxInt_ub t mt ht v hv
        have : mt = v := le_antisymm hmt hvmt
        subst this
        simp [max_eq_right hx]

theorem mem_sentRecordsOf (records : List EmailRecord) (i : Nat) (r : EmailRecord) :
    r ∈ sentRecordsOf records i ↔
      r ∈ records ∧ r.job_application_id = i ∧ r.status = EmailStatus.sent := by
  unfold sentRecordsOf
  rw [List.mem_filter]
  simp

theorem lastSent_key (records : List EmailRecord) (appId : Nat) (r : EmailRecord)
    (h : lastSentEmail records appId = some r) :
    specMaxSentTime records appId = timeKey r := by
  obtain ⟨hmem, hub⟩ := pickMax_spec _ r h
  unfold specMaxSentTime sentTimes
  cases hk : r.sent_at with
  | none =>
    have hall : ∀ x ∈ sentRecordsOf records appId, x.sent_at.map (·.v) = none := by
      intro x hx
      have := hub x hx
      unfold timeKey at this
      rw [hk] at this
      cases hxs : x.sent_at with
      | none => simp
      | some u => rw [hxs] at this; simp [optTimeLe] at this
    rw [List.filterMap_eq_nil_iff.mpr (by intro a ha; exact hall a ha)]
    simp [listMaxInt, timeKey, hk]
  | some t =>
    have hvmem : t.v ∈ (sentRecordsOf records appId).filterMap (fun x => x.sent_at.map (·.v)) := by
      rw [List.mem_filterMap]
      exact ⟨r, hmem, by rw [hk]; rfl⟩
    have hvub : ∀ w ∈ (sentRecordsOf records appId).filterMap (fun x => x.sent_at.map (·.v)),
        w ≤ t.v := by
      intro w hw
      rw [List.mem_filterMap] at hw
      obtain ⟨x, hxmem, hxw⟩ := hw
      have := hub x hxmem
      unfold timeKey at this
      rw [hk] at this
      cases hxs : x.sent_at with
      | none => rw [hxs] at hxw; cases hxw
      | some u =>
        rw [hxs] at hxw this
        simp only [Option.map_some', Option.some.injEq] at hxw
        simp only [Option.map_some', optTimeLe] at this
        rw [← hxw]
        simpa using this
    rw [listMaxInt_eq_of _ t.v hvmem hvub]
    simp [timeKey, hk]

theorem needsFollowUp_iff (cfg : TrackerConfig) (now : Int)
    (records : List EmailRecord) (app : JobApplication) :
    needsFollowUp cfg now records app = true ↔ eligibleStrict cfg now records app := by
  constructor
  · intro h
    simp only [needsFollowUp, Bool.and_eq_true] at h
    obtain ⟨hstat, hrest⟩ := h
    have hstat2 : app.status = JobStatus.reached_out ∨ app.status = JobStatus.applied := by
      rw [Bool.or_eq_true] at hstat
      rcases hstat with h | h
      · exact Or.inl (by simpa using h)
      · exact Or.inr (by simpa using h)
    cases hlast : lastSentEmail records app.id with
    | none => simp only [hlast] at hrest; cases hrest
    | some last =>
      simp only [hlast] at hrest
      cases hsent : last.sent_at with
      | none => simp only [hsent] at hrest; cases hrest
      | some t =>
        simp only [hsent, Bool.and_eq_true, decide_eq_true_eq] at hrest
        obtain ⟨htime, hcount⟩ := hrest
        have hkey := lastSent_key records app.id last hlast
        have hmem3 := (mem_sentRecordsOf records app.id last).mp (pickMax_spec _ last hlast).1
        refine ⟨hstat2, ⟨last, hmem3.1, hmem3.2.1, hmem3.2.2⟩, ⟨t.v, ?_, ?_⟩, hcount⟩
        · rw [hkey]; unfold timeKey; rw [hsent]; rfl
        · unfold normalizeUTC at htime; omega
  · rintro ⟨hstat, hex, ⟨m, hm, hmlt⟩, hcount⟩
    simp only [needsFollowUp, Bool.and_eq_true]
    constructor
    · rcases hstat with h | h <;> simp [h]
    · cases hlast : lastSentEmail records app.id with
      | none =>
        have hemp : sentRecordsOf records app.id = [] := (pickMax_none_iff _).mp hlast
        obtain ⟨r, hr1, hr2, hr3⟩ := hex
        have hrm : r ∈ sentRecordsOf records app.id :=
          (mem_sentRecordsOf records app.id r).mpr ⟨hr1, hr2, hr3⟩
        rw [hemp] at hrm
        cases hrm
      | some last =>
        have hkey := lastSent_key records app.id last hlast
        simp only [hlast]
        cases hsent : last.sent_at with
        | none =>
          rw [hkey] at hm
          unfold timeKey at hm
          rw [hsent] at hm
          cases hm
        | some t =>
          have : m = t.v := by
            rw [hkey] at hm
            unfold timeKey at hm
            rw [hsent] at hm
            simpa using hm.symm
          subst this
          simp only [hsent, Bool.and_eq_true, decide_eq_true_eq]
          exact ⟨by unfold normalizeUTC; omega, hcount⟩

/-- C2 counterexample: with the elapsed time exactly equal to the
configured interval the claim's `≥` boundary says "eligible", but
`get_applications_needing_follow_up` (which tests `sent_at < cutoff`
strictly) excludes the application. -/
theorem follow_up_boundary_cex :
    eligibleClaimGE c2cfg c2now c2store.records baseApp ∧
    baseApp ∈ c2store.apps ∧
    baseApp ∉ getApplicationsNeedingFollowUp c2cfg c2now c2store := by decide

/-- C2 (amended): an application in the store is returned by
`get_applications_needing_follow_up` iff its status is REACHED_OUT or
APPLIED, it has a sent record, the elapsed time since the most recent sent
timestamp (naive values read as UTC) is STRICTLY GREATER than the
configured interval, and the highest sent follow-up number is strictly
below the configured maximum (boundary cases: exactly-elapsed interval and
exactly-at-max are both excluded). -/
theorem follow_up_eligibility :
    ∀ (cfg : TrackerConfig) (now : Int) (st : Store) (app : JobApplication),
      app ∈ st.apps →
      (app ∈ getApplicationsNeedingFollowUp cfg now st ↔
        eligibleStrict cfg now st.records app) := by
  intro cfg now st app happ
  unfold getApplicationsNeedingFollowUp
  rw [List.mem_filter]
  constructor
  · exact fun h => (needsFollowUp_iff cfg now st.records app).mp h.2
  · exact fun h => ⟨happ, (needsFollowUp_iff cfg now st.records app).mpr h⟩

/-- Witness for C2: one microsecond past the boundary the application is
eligible and returned. -/
theorem follow_up_eligibility_witness :
    baseApp ∈ getApplicationsNeedingFollowUp c2cfg (c2now + 1) c2store ∧
    eligibleStrict c2cfg (c2now + 1) c2store.records baseApp := by
  have h := follow_up_eligibility c2cfg (c2now + 1) c2store baseApp (by decide)
  exact ⟨h.mpr (by decide), by decide⟩

/-! ## C4: dry-run vs apply divergence (sequential in-place renumbering) -/

/-- C4 (code-bug evaluation): on a store whose two waves are numbered in
reverse chronological order (wave 2 sent before wave 1), the computed
mapping is {2->1, 1->2}; dry run reports 2 row updates, but apply mode
performs 3 (the second update re-matches the rows just renumbered) and
leaves BOTH records with follow_up_number 2 instead of the dense 1..2 its
own docstring promises -- and mutates a different number of rows than it
reports in dry run. -/
theorem repair_apply_dry_divergence :
    waveNumbers c4store.records 1 = [2, 1] ∧
    (repairFollowUpNumbers c4store true).log = [(1, [(2, 1), (1, 2)])] ∧
    (repairFollowUpNumbers c4store true).records = c4store.records ∧
    (repairFollowUpNumbers c4store true).rowsUpdated = 2 ∧
    (repairFollowUpNumbers c4store false).rowsUpdated = 3 ∧
    (repairFollowUpNumbers c4store false).records.map (·.follow_up_number) = [2, 2] := by
  decide

/-! ## C3: the repair mapping -/

theorem sInsert_perm (key : Nat → Option Int) (n : Nat) (l : List Nat) :
    (sInsertByKey key n l).Perm (n :: l) := by
  induction l with
  | nil => simp [sInsertByKey]
  | cons m t ih =>
    unfold sInsertByKey
    split
    · exact ((ih.cons m).trans (List.Perm.swap n m t)).symm.symm
    · exact List.Perm.refl _

theorem sSort_perm (key : Nat → Option Int) (l : List Nat) :
    (sSortByKey key l).Perm l := by
  induction l with
  | nil => simp [sSortByKey]
  | cons n t ih =>
    unfold sSortByKey
    exact (sInsert_perm key n _).trans (ih.cons n)

theorem sInsert_sorted (key : Nat → Option Int) (n : Nat) (l : List Nat)
    (h : l.Pairwise (fun a b => optTimeLe (key a) (key b) = true)) :
    (sInsertByKey key n l).Pairwise (fun a b => optTimeLe (key a) (key b) = true) := by
  induction l with
  | nil => simp [sInsertByKey]
  | cons m t ih =>
    rw [List.pairwise_cons] at h
    obtain ⟨hm, ht⟩ := h
    unfold sInsertByKey
    by_cases hc : optTimeLe (key m) (key n) = true
    · rw [if_pos hc]
      rw [List.pairwise_cons]
      refine ⟨?_, ih ht⟩
      intro b hb
      have hb2 : b ∈ n :: t := (sInsert_perm key n t).mem_iff.mp hb
      rcases List.mem_cons.mp hb2 with rfl | hb2
      · exact hc
      · exact hm b hb2
    · rw [if_neg hc]
      have hnm : optTimeLe (key n) (key m) = true := by
        rcases optTimeLe_total (key m) (key n) with h1 | h1
        · exact absurd h1 hc
        · exact h1
      rw [List.pairwise_cons]
      refine ⟨?_, List.Pairwise.cons hm ht⟩
      intro b hb
      rcases List.mem_cons.mp hb with rfl | hb2
      · exact hnm
      · exact optTimeLe_trans _ _ _ hnm (hm b hb2)

theorem sSort_sorted (key : Nat → Option Int) (l : List Nat) :
    (sSortByKey key l).Pairwise (fun a b => optTimeLe (key a) (key b) = true) := by
  induction l with
  | nil => simp [sSortByKey]
  | cons n t ih =>
    unfold sSortByKey
    exact sInsert_sorted key n _ ih

theorem distinctNatsAux_mem (l : List Nat) :
    ∀ (seen : List Nat) (n : Nat),
      n ∈ distinctNatsAux seen l ↔ n ∈ l ∧ n ∉ seen := by
  induction l with
  | nil => intro seen n; simp [distinctNatsAux]
  | cons m t ih =>
    intro seen n
    unfold distinctNatsAux
    by_cases hm : m ∈ seen
    · rw [if_pos hm, ih seen n]
      constructor
      · exact fun h => ⟨List.mem_cons_of_mem _ h.1, h.2⟩
      · rintro ⟨h1, h2⟩
        rcases List.mem_cons.mp h1 with rfl | h1
        · exact absurd hm h2
        · exact ⟨h1, h2⟩
    · rw [if_neg hm]
      constructor
      · intro h
        rcases List.mem_cons.mp h with rfl | h
        · exact ⟨List.mem_cons_self _ _, hm⟩
        · rw [ih (m :: seen) n] at h
          exact ⟨List.mem_cons_of_mem _ h.1, fun hs => h.2 (List.mem_cons_of_mem _ hs)⟩
      · rintro ⟨h1, h2⟩
        rcases List.mem_cons.mp h1 with rfl | h1
        · exact List.mem_cons_self _ _
        · by_cases hn : n = m
          · subst hn; exact List.mem_cons_self _ _
          · exact List.mem_cons_of_mem _ ((ih (m :: seen) n).mpr
              ⟨h1, by simp [hn, h2]⟩)

theorem distinctNatsAux_nodup (l : List Nat) :
    ∀ seen : List Nat, (distinctNatsAux seen l).Nodup := by
  induction l with
  | nil => intro seen; simp [distinctNatsAux]
  | cons m t ih =>
    intro seen
    unfold distinctNatsAux
    by_cases hm : m ∈ seen
    · rw [if_pos hm]; exact ih seen
    · rw [if_neg hm]
      rw [List.nodup_cons]
      refine ⟨?_, ih (m :: seen)⟩
      intro hmem
      exact ((distinctNatsAux_mem t (m :: seen) m).mp hmem).2 (List.mem_cons_self _ _)

theorem waveNumbers_nodup (records : List EmailRecord) (appId : Nat) :
    (waveNumbers records appId).Nodup := by
  unfold waveNumbers
  exact ((sSort_perm _ _).trans (sSort_perm _ _)).nodup_iff.mpr
    (distinctNatsAux_nodup _ [])

theorem waveNumbers_sorted (records : List EmailRecord) (appId : Nat) :
    (waveNumbers records appId).Pairwise
      (fun a b => optTimeLe (minSentAtOfWave records appId a)
        (minSentAtOfWave records appId b) = true) := by
  unfold waveNumbers
  exact sSort_sorted _ _

theorem mem_waveNumbers (records : List EmailRecord) (appId : Nat) (n : Nat) :
    n ∈ waveNumbers records appId ↔
      ∃ r ∈ records, r.job_application_id = appId ∧ r.is_follow_up = true ∧
        r.status = EmailStatus.sent ∧ 0 < r.follow_up_number ∧
        r.follow_up_number = n := by
  unfold waveNumbers
  rw [((sSort_perm _ _).trans (sSort_perm _ _)).mem_iff]
  unfold distinctNats
  rw [distinctNatsAux_mem]
  simp only [List.not_mem_nil, not_false_iff, and_true]
  rw [List.mem_map]
  constructor
  · rintro ⟨r, hr, rfl⟩
    unfold followUpSentPos at hr
    rw [List.mem_filter] at hr
    obtain ⟨hr1, hr2⟩ := hr
    simp only [Bool.and_eq_true, beq_iff_eq, decide_eq_true_eq] at hr2
    exact ⟨r, hr1, hr2.1.1.1, hr2.1.1.2, hr2.1.2, hr2.2, rfl⟩
  · rintro ⟨r, hr, h1, h2, h3, h4, rfl⟩
    refine ⟨r, ?_, rfl⟩
    unfold followUpSentPos
    rw [List.mem_filter]
    exact ⟨hr, by simp [h1, h2, h3, h4]⟩

theorem applyWaveFold_dry_records (appId : Nat) (mapping : List (Nat × Nat)) :
    ∀ acc : Nat × List EmailRecord,
      (mapping.foldl (applyWaveUpdate true appId) acc).2 = acc.2 := by
  induction mapping with
  | nil => intro acc; rfl
  | cons p t ih =>
    intro acc
    rw [List.foldl_cons, ih]
    unfold applyWaveUpdate
    split
    · rfl
    · rfl

theorem repairOneApp_dry_records (s : RepairState) (appId : Nat) :
    (repairOneApp true s appId).records = s.records := by
  unfold repairOneApp
  split
  · rfl
  · split
    · rfl
    · exact applyWaveFold_dry_records _ _ _

theorem repairFold_dry_records (ids : List Nat) :
    ∀ s : RepairState, (ids.foldl (repairOneApp true) s).records = s.records := by
  induction ids with
  | nil => intro s; rfl
  | cons i t ih =>
    intro s
    rw [List.foldl_cons, ih, repairOneApp_dry_records]

theorem repair_dry_records (st : Store) :
    (repairFollowUpNumbers st true).records = st.records := by
  unfold repairFollowUpNumbers
  rw [repairFold_dry_records]

theorem repairOneApp_log (b : Bool) (s : RepairState) (appId : Nat) :
    (repairOneApp b s appId).log = s.log ++ repairLogEntry s.records appId := by
  unfold repairOneApp repairLogEntry
  by_cases h1 : (waveNumbers s.records appId).isEmpty = true
  · rw [if_pos h1, if_pos h1]
    simp
  · rw [if_neg h1, if_neg h1]
    by_cases h2 : waveNumbers s.records appId =
        List.range' 1 (waveNumbers s.records appId).length
    · rw [if_pos h2, if_pos h2]
      simp
    · rw [if_neg h2, if_neg h2]
      simp [repairMapping]

theorem repairFold_dry_log (ids : List Nat) :
    ∀ s : RepairState,
      (ids.foldl (repairOneApp true) s).log =
        s.log ++ ids.flatMap (fun i => repairLogEntry s.records i) := by
  induction ids with
  | nil => intro s; simp
  | cons i t ih =>
    intro s
    rw [List.foldl_cons, ih, repairOneApp_log]
    rw [repairOneApp_dry_records]
    simp [List.flatMap_cons]

theorem repair_dry_log (st : Store) :
    (repairFollowUpNumbers st true).log =
      (repairAppIds st.records).flatMap (fun i => repairLogEntry st.records i) := by
  unfold repairFollowUpNumbers
  rw [repairFold_dry_log]
  rfl

theorem repairLogEntry_fst (records : List EmailRecord) (i : Nat) :
    ∀ e ∈ repairLogEntry records i, e.1 = i := by
  intro e he
  unfold repairLogEntry at he
  by_cases h1 : (waveNumbers records i).isEmpty = true
  · rw [if_pos h1] at he; cases he
  · rw [if_neg h1] at he
    by_cases h2 : waveNumbers records i = List.range' 1 (waveNumbers records i).length
    · rw [if_pos h2] at he; cases he
    · rw [if_neg h2] at he
      rcases List.mem_singleton.mp he with rfl
      rfl

theorem filter_flatMap_logEntry (records : List EmailRecord) (appId : Nat) :
    ∀ ids : List Nat, ids.Nodup →
      ((ids.flatMap (fun i => repairLogEntry records i)).filter
        (fun e => e.1 == appId)) =
        if appId ∈ ids then repairLogEntry records appId else [] := by
  intro ids
  induction ids with
  | nil => intro _; simp
  | cons i t ih =>
    intro hnd
    rw [List.nodup_cons] at hnd
    rw [List.flatMap_cons, List.filter_append, ih hnd.2]
    by_cases hi : i = appId
    · subst hi
      rw [if_pos (List.mem_cons_self _ _), if_neg hnd.1]
      have hkeep : (repairLogEntry records i).filter (fun e => e.1 == i) =
          repairLogEntry records i := by
        apply List.filter_eq_self.mpr
        intro e he
        simp [repairLogEntry_fst records i e he]
      rw [hkeep, List.append_nil]
    · have hdrop : (repairLogEntry records i).filter (fun e => e.1 == appId) = [] := by
        apply List.filter_eq_nil_iff.mpr
        intro e he
        simp [repairLogEntry_fst records i e he, hi]
      rw [hdrop, List.nil_append]
      by_cases hmem : appId ∈ t
      · rw [if_pos hmem, if_pos (List.mem_cons_of_mem _ hmem)]
      · rw [if_neg hmem, if_neg (by simp [Ne.symm hi, hmem])]

theorem repairAppIds_nodup (records : List EmailRecord) :
    (repairAppIds records).Nodup :=
  distinctNatsAux_nodup _ []

theorem mem_repairAppIds (records : List EmailRecord) (i : Nat) :
    i ∈ repairAppIds records ↔
      ∃ r ∈ records, r.job_application_id = i ∧ r.is_follow_up = true ∧
        r.status = EmailStatus.sent := by
  unfold repairAppIds distinctNats
  rw [distinctNatsAux_mem]
  simp only [List.not_mem_nil, not_false_iff, and_true]
  rw [List.mem_map]
  constructor
  · rintro ⟨r, hr, rfl⟩
    rw [List.mem_filter] at hr
    obtain ⟨hr1, hr2⟩ := hr
    simp only [Bool.and_eq_true, beq_iff_eq] at hr2
    exact ⟨r, hr1, rfl, hr2.1, hr2.2⟩
  · rintro ⟨r, hr, rfl, h2, h3⟩
    exact ⟨r, List.mem_filter.mpr ⟨hr, by simp [h2, h3]⟩, rfl⟩

theorem waveNumbers_subset_appIds (records : List EmailRecord) (appId : Nat)
    (h : waveNumbers records appId ≠ []) : appId ∈ repairAppIds records := by
  obtain ⟨n, hn⟩ := List.exists_mem_of_ne_nil _ h
  obtain ⟨r, hr, h1, h2, h3, -, -⟩ := (mem_waveNumbers records appId n).mp hn
  exact (mem_repairAppIds records appId).mpr ⟨r, hr, h1, h2, h3⟩

theorem recordsOfApp_map_cond (l : List EmailRecord) (appId appId2 : Nat)
    (hne : appId2 ≠ appId) (q : EmailRecord → Bool) (newN : Nat)
    (hq : ∀ r, q r = true → r.job_application_id = appId2) :
    recordsOfApp (l.map (fun r =>
      if q r then { r with follow_up_number := newN } else r)) appId =
      recordsOfApp l appId := by
  induction l with
  | nil => rfl
  | cons r t ih =>
    unfold recordsOfApp at *
    rw [List.map_cons]
    by_cases hqr : q r = true
    · rw [if_pos hqr]
      have hrid : r.job_application_id = appId2 := hq r hqr
      have hne2 : (r.job_application_id == appId) = false := by
        simp [hrid, hne]
      rw [List.filter_cons, List.filter_cons]
      simp only [hne2, Bool.false_eq_true, if_false]
      exact ih
    · rw [if_neg hqr]
      rw [List.filter_cons, List.filter_cons]
      cases h : r.job_application_id == appId
      · simp only [Bool.false_eq_true, if_false]
        exact ih
      · simp only [if_true]
        rw [ih]

theorem applyWaveUpdate_other_proj (b : Bool) (appId2 appId : Nat)
    (hne : appId2 ≠ appId) (pair : Nat × Nat) (acc : Nat × List EmailRecord) :
    recordsOfApp (applyWaveUpdate b appId2 acc pair).2 appId =
      recordsOfApp acc.2 appId := by
  unfold applyWaveUpdate
  split
  · rfl
  · cases b
    · dsimp only
      exact recordsOfApp_map_cond acc.2 appId appId2 hne _ pair.2
        (fun r hr => by
          simp only [Bool.and_eq_true, beq_iff_eq] at hr
          exact hr.1.1.1)
    · rfl

theorem applyWaveFold_other_proj (b : Bool) (appId2 appId : Nat)
    (hne : appId2 ≠ appId) (mapping : List (Nat × Nat)) :
    ∀ acc : Nat × List EmailRecord,
      recordsOfApp (mapping.foldl (applyWaveUpdate b appId2) acc).2 appId =
        recordsOfApp acc.2 appId := by
  induction mapping with
  | nil => intro acc; rfl
  | cons p t ih =>
    intro acc
    rw [List.foldl_cons, ih, applyWaveUpdate_other_proj b appId2 appId hne]

theorem repairOneApp_other_proj (b : Bool) (s : RepairState) (i appId : Nat)
    (hne : i ≠ appId) :
    recordsOfApp (repairOneApp b s i).records appId = recordsOfApp s.records appId := by
  unfold repairOneApp
  split
  · rfl
  · split
    · rfl
    · exact applyWaveFold_other_proj b i appId hne _ _

theorem followUpSentPos_of_proj (records : List EmailRecord) (appId : Nat) :
    followUpSentPos records appId =
      (recordsOfApp records appId).filter (fun r =>
        r.is_follow_up && r.status == EmailStatus.sent &&
        decide (0 < r.follow_up_number)) := by
  unfold followUpSentPos recordsOfApp
  rw [List.filter_filter]
  apply List.filter_congr
  intro r _
  cases h1 : r.job_application_id == appId <;> cases h2 : r.is_follow_up <;>
    cases h3 : r.status == EmailStatus.sent <;>
    cases h4 : decide (0 < r.follow_up_number) <;> rfl

theorem waveNumbers_of_proj (records records2 : List EmailRecord) (appId : Nat)
    (h : recordsOfApp records appId = recordsOfApp records2 appId) :
    waveNumbers records appId = waveNumbers records2 appId := by
  have hpos : followUpSentPos records appId = followUpSentPos records2 appId := by
    rw [followUpSentPos_of_proj, followUpSentPos_of_proj, h]
  have hmin : minSentAtOfWave records appId = minSentAtOfWave records2 appId := by
    funext n
    unfold minSentAtOfWave
    rw [hpos]
  unfold waveNumbers
  rw [hpos, hmin]

theorem repairFold_dense_app (b : Bool) (st : Store) (appId : Nat)
    (hdense : waveNumbers st.records appId =
      List.range' 1 (waveNumbers st.records appId).length) :
    ∀ (ids : List Nat) (s : RepairState),
      recordsOfApp s.records appId = recordsOfApp st.records appId →
      (∀ e ∈ s.log, e.1 ≠ appId) →
      recordsOfApp (ids.foldl (repairOneApp b) s).records appId =
        recordsOfApp st.records appId ∧
      (∀ e ∈ (ids.foldl (repairOneApp b) s).log, e.1 ≠ appId) := by
  intro ids
  induction ids with
  | nil => intro s h1 h2; exact ⟨h1, h2⟩
  | cons i t ih =>
    intro s h1 h2
    rw [List.foldl_cons]
    by_cases hi : i = appId
    · subst hi
      have hw : waveNumbers s.records i = waveNumbers st.records i :=
        waveNumbers_of_proj _ _ _ h1
      have hstep : repairOneApp b s i = { s with scanned := s.scanned + 1 } := by
        unfold repairOneApp
        by_cases hemp : (waveNumbers s.records i).isEmpty = true
        · rw [if_pos hemp]
        · rw [if_neg hemp, if_pos (by rw [hw]; exact hdense)]
      rw [hstep]
      exact ih _ h1 h2
    · have hproj := repairOneApp_other_proj b s i appId hi
      rw [h1] at hproj
      refine ih _ hproj ?_
      intro e he
      rw [repairOneApp_log] at he
      rcases List.mem_append.mp he with he | he
      · exact h2 e he
      · rw [repairLogEntry_fst s.records i e he]
        exact hi

theorem repairOneApp_changed (b : Bool) (s : RepairState) (appId : Nat) :
    (repairOneApp b s appId).changed =
      s.changed + (repairLogEntry s.records appId).length := by
  unfold repairOneApp repairLogEntry
  by_cases h1 : (waveNumbers s.records appId).isEmpty = true
  · rw [if_pos h1, if_pos h1]
    rfl
  · rw [if_neg h1, if_neg h1]
    by_cases h2 : waveNumbers s.records appId =
        List.range' 1 (waveNumbers s.records appId).length
    · rw [if_pos h2, if_pos h2]
      rfl
    · rw [if_neg h2, if_neg h2]
      rfl

theorem repairFold_changed (b : Bool) (ids : List Nat) :
    ∀ s : RepairState,
      (ids.foldl (repairOneApp b) s).changed + s.log.length =
        (ids.foldl (repairOneApp b) s).log.length + s.changed := by
  induction ids with
  | nil =>
    intro s
    simp only [List.foldl_nil]
    omega
  | cons i t ih =>
    intro s
    rw [List.foldl_cons]
    have h1 := repairOneApp_changed b s i
    have h2 : (repairOneApp b s i).log.length =
        s.log.length + (repairLogEntry s.records i).length := by
      rw [repairOneApp_log, List.length_append]
    have h3 := ih (repairOneApp b s i)
    omega

theorem repair_changed_eq_log (st : Store) (b : Bool) :
    (repairFollowUpNumbers st b).changed = (repairFollowUpNumbers st b).log.length := by
  have h := repairFold_changed b (repairAppIds st.records)
    { scanned := 0, changed := 0, rowsUpdated := 0, log := [], records := st.records }
  unfold repairFollowUpNumbers
  simpa using h

/-- C3 counterexample: an application whose only sent follow-up record has
`follow_up_number` 0 is left untouched (the waves query filters
`follow_up_number > 0`), while the claim as stated would remap it to the
dense sequence `[1]` and count the application as changed. -/
theorem repair_zero_wave_cex :
    (c3store.records.filter (fun r =>
      r.is_follow_up && r.status == EmailStatus.sent)).length = 1 ∧
    (repairFollowUpNumbers c3store false).records.map (·.follow_up_number) = [0] ∧
    (repairFollowUpNumbers c3store false).changed = 0 ∧
    ¬((repairFollowUpNumbers c3store false).records.map (·.follow_up_number) = [1]) := by
  decide

/-- C3 (amended): for every application, the repair routine groups its sent
follow-up records WITH POSITIVE `follow_up_number` by number, orders the
groups by earliest sent timestamp, and computes the remapping of those
numbers to the dense sequence `1..N` in that chronological order (the
logged mapping); an application whose sequence already equals the dense
sequence -- and one with no positive-numbered sent follow-up records --
is left unmodified and not counted as changed, in both modes. -/
theorem repair_mapping_chronological :
    ∀ (st : Store) (appId : Nat),
      (waveNumbers st.records appId).Pairwise
        (fun a b => optTimeLe (minSentAtOfWave st.records appId a)
          (minSentAtOfWave st.records appId b) = true) ∧
      (waveNumbers st.records appId).Nodup ∧
      (∀ n, n ∈ waveNumbers st.records appId ↔
        ∃ r ∈ st.records, r.job_application_id = appId ∧ r.is_follow_up = true ∧
          r.status = EmailStatus.sent ∧ 0 < r.follow_up_number ∧
          r.follow_up_number = n) ∧
      repairMapping st.records appId =
        (waveNumbers st.records appId).zip
          (List.range' 1 (waveNumbers st.records appId).length) ∧
      ((repairFollowUpNumbers st true).log.filter (fun e => e.1 == appId) =
        if waveNumbers st.records appId = [] ∨
            waveNumbers st.records appId =
              List.range' 1 (waveNumbers st.records appId).length
        then [] else [(appId, repairMapping st.records appId)]) ∧
      (∀ b, (repairFollowUpNumbers st b).changed =
        (repairFollowUpNumbers st b).log.length) ∧
      (waveNumbers st.records appId =
          List.range' 1 (waveNumbers st.records appId).length →
        ∀ b, recordsOfApp (repairFollowUpNumbers st b).records appId =
            recordsOfApp st.records appId ∧
          ∀ e ∈ (repairFollowUpNumbers st b).log, e.1 ≠ appId) := by
  intro st appId
  refine ⟨waveNumbers_sorted st.records appId, waveNumbers_nodup st.records appId,
    mem_waveNumbers st.records appId, rfl, ?_, repair_changed_eq_log st, ?_⟩
  · rw [repair_dry_log, filter_flatMap_logEntry st.records appId _
      (repairAppIds_nodup st.records)]
    by_cases hmem : appId ∈ repairAppIds st.records
    · rw [if_pos hmem]
      unfold repairLogEntry repairMapping
      by_cases h1 : (waveNumbers st.records appId).isEmpty = true
      · rw [if_pos h1, if_pos (Or.inl (List.isEmpty_iff.mp h1))]
      · rw [if_neg h1]
        by_cases h2 : waveNumbers st.records appId =
            List.range' 1 (waveNumbers st.records appId).length
        · rw [if_pos h2, if_pos (Or.inr h2)]
        · rw [if_neg h2, if_neg (by
            rintro (h | h)
            · exact h1 (by simp [h])
            · exact h2 h)]
    · rw [if_neg hmem]
      have hw : waveNumbers st.records appId = [] := by
        by_contra hne
        exact hmem (waveNumbers_subset_appIds st.records appId hne)
      rw [if_pos (Or.inl hw)]
  · intro hdense b
    exact repairFold_dense_app b st appId hdense (repairAppIds st.records)
      { scanned := 0, changed := 0, rowsUpdated := 0, log := [], records := st.records }
      rfl (by intro e he; cases he)

/-- Witness for C3: on the two-recruiter fixture the single wave `[1]` is
already dense, so the repair leaves the application's records untouched
and logs nothing; on the inverted fixture the logged mapping is the dense
chronological renumbering (2 -> 1, 1 -> 2). -/
theorem repair_mapping_chronological_witness :
    recordsOfApp (repairFollowUpNumbers c1store false).records 1 =
      recordsOfApp c1store.records 1 ∧
    (repairFollowUpNumbers c4store true).log.filter (fun e => e.1 == 1) =
      [(1, [(2, 1), (1, 2)])] := by
  constructor
  · exact (((repair_mapping_chronological c1store 1).2.2.2.2.2.2 (by decide)) false).1
  · have h := (repair_mapping_chronological c4store 1).2.2.2.2.1
    rw [h, if_neg (by decide)]
    decide

/-! ## C5: upsert and re-linking -/

theorem find_by_id_of_nodup (rs : List Recruiter) (r : Recruiter)
    (hN : (rs.map (·.id)).Nodup) (hr : r ∈ rs) :
    rs.find? (fun x => x.id == r.id) = some r := by
  induction rs with
  | nil => cases hr
  | cons a t ih =>
    rw [List.map_cons, List.nodup_cons] at hN
    rcases List.mem_cons.mp hr with rfl | hr
    · exact List.find?_cons_of_pos _ (by simp)
    · have hne : a.id ≠ r.id := by
        intro he
        exact hN.1 (he ▸ List.mem_map_of_mem (·.id) hr)
      rw [List.find?_cons_of_neg _ (by simp [hne]), ih hN.2 hr]

theorem mem_linkedEmails (st : Store) (appId : Nat) (e : String) :
    e ∈ linkedEmails st appId ↔
      ∃ l ∈ st.links, l.1 = appId ∧ ∃ r, st.recruiters.find?
        (fun x => x.id == l.2) = some r ∧ r.email = e := by
  unfold linkedEmails linkedRecruitersOf
  rw [List.mem_map]
  constructor
  · rintro ⟨r, hr, rfl⟩
    rw [List.mem_filterMap] at hr
    obtain ⟨l, hl, hfind⟩ := hr
    rw [List.mem_filter] at hl
    exact ⟨l, hl.1, by simpa using hl.2, r, hfind, rfl⟩
  · rintro ⟨l, hl, hl1, r, hfind, rfl⟩
    exact ⟨r, List.mem_filterMap.mpr ⟨l, List.mem_filter.mpr ⟨hl, by simp [hl1]⟩, hfind⟩, rfl⟩

theorem firstOccAux_congr (es : List String) :
    ∀ s1 s2 : List String, (∀ x, x ∈ s1 ↔ x ∈ s2) →
      firstOccStringsAux s1 es = firstOccStringsAux s2 es := by
  induction es with
  | nil => intro s1 s2 _; rfl
  | cons e t ih =>
    intro s1 s2 h
    unfold firstOccStringsAux
    by_cases he : e ∈ s1
    · rw [if_pos he, if_pos ((h e).mp he)]
      exact ih s1 s2 h
    · rw [if_neg he, if_neg (fun hx => he ((h e).mpr hx))]
      rw [ih (e :: s1) (e :: s2) (by intro x; simp [h x])]

theorem linkedEmails_links_append (st : Store) (appId : Nat) (ls : List (Nat × Nat)) :
    linkedEmails { st with links := st.links ++ ls } appId =
      linkedEmails st appId ++
        linkedEmails { st with links := ls } appId := by
  unfold linkedEmails linkedRecruitersOf
  rw [show ({ st with links := st.links ++ ls } : Store).links = st.links ++ ls from rfl,
    List.filter_append, List.filterMap_append, List.map_append]

theorem linkOne_none_email (st : Store) (appId : Nat) (input : RecruiterInput)
    (h : truthyEmail input = none) : linkOneRecruiter appId st input = st := by
  cases he : input.email with
  | none => simp only [linkOneRecruiter, he]
  | some e =>
    have h2 : e.isEmpty = true := by
      unfold truthyEmail at h
      simp only [he] at h
      by_contra hne
      rw [if_neg hne] at h
      cases h
    simp only [linkOneRecruiter, he, h2, if_true]

theorem linkOne_spec (st : Store) (appId : Nat) (input : RecruiterInput) (e : String)
    (hwf : recruiterTablesWF st) (he : truthyEmail input = some e) :
    recruiterTablesWF (linkOneRecruiter appId st input) ∧
    linkedEmails (linkOneRecruiter appId st input) appId =
      (if e ∈ linkedEmails st appId then linkedEmails st appId
       else linkedEmails st appId ++ [e]) := by
  obtain ⟨hids, hbound, hemails, hlinks⟩ := hwf
  have hee : input.email = some e ∧ e.isEmpty = false := by
    unfold truthyEmail at he
    cases hi : input.email with
    | none => rw [hi] at he; cases he
    | some e2 =>
      simp only [hi] at he
      by_cases hemp : e2.isEmpty
      · rw [if_pos hemp] at he; cases he
      · rw [if_neg hemp] at he
        obtain rfl : e2 = e := by simpa using he
        exact ⟨rfl, by simpa using hemp⟩
  simp only [linkOneRecruiter, hee.1]
  rw [if_neg (by simp [hee.2])]
  cases hfind : st.recruiters.find? (fun r => r.email == e) with
  | some r =>
    simp only [hfind]
    have hrmem := List.mem_of_find?_eq_some hfind
    have hremail : r.email = e := by simpa using List.find?_some hfind
    have hfid : st.recruiters.find? (fun x => x.id == r.id) = some r :=
      find_by_id_of_nodup st.recruiters r hids hrmem
    by_cases hlink : (appId, r.id) ∈ st.links
    · rw [if_pos hlink]
      have hmem : e ∈ linkedEmails st appId :=
        (mem_linkedEmails st appId e).mpr ⟨(appId, r.id), hlink, rfl, r, hfid, hremail⟩
      rw [if_pos hmem]
      exact ⟨⟨hids, hbound, hemails, hlinks⟩, rfl⟩
    · rw [if_neg hlink]
      have hnmem : e ∉ linkedEmails st appId := by
        intro hmem
        obtain ⟨l, hl, hl1, r2, hfind2, hr2e⟩ := (mem_linkedEmails st appId e).mp hmem
        have hr2mem := List.mem_of_find?_eq_some hfind2
        have : r2 = r := List.inj_on_of_nodup_map hemails hr2mem hrmem
          (by rw [hr2e, hremail])
        subst this
        have : l.2 = r2.id := by
          have h5 := List.find?_some hfind2
          simp only [beq_iff_eq] at h5
          omega
        have : l = (appId, r2.id) := by
          cases l
          simp only at hl1 this
          rw [hl1, this]
        rw [this] at hl
        exact hlink hl
      rw [if_neg hnmem]
      refine ⟨⟨hids, hbound, hemails, ?_⟩, ?_⟩
      · intro l hl
        rcases List.mem_append.mp hl with hl | hl
        · exact hlinks l hl
        · rcases List.mem_singleton.mp hl with rfl
          exact hbound r hrmem
      · rw [linkedEmails_links_append]
        congr 1
        unfold linkedEmails linkedRecruitersOf
        dsimp only
        rw [List.filter_cons_of_pos (by simp), List.filter_nil]
        simp [hfid, hremail]
  | none =>
    simp only [hfind]
    have hnoemail : ∀ r ∈ st.recruiters, r.email ≠ e := by
      intro r hr hre
      have := List.find?_eq_none.mp hfind r hr
      simp [hre] at this
    have hnmem : e ∉ linkedEmails st appId := by
      intro hmem
      obtain ⟨l, hl, hl1, r2, hfind2, hr2e⟩ := (mem_linkedEmails st appId e).mp hmem
      exact hnoemail r2 (List.mem_of_find?_eq_some hfind2) hr2e
    rw [if_neg hnmem]
    constructor
    · refine ⟨?_, ?_, ?_, ?_⟩ <;> dsimp only
      · rw [List.map_append, List.nodup_append]
        refine ⟨hids, by simp, ?_⟩
        intro x hx hx2
        rw [List.mem_map] at hx
        obtain ⟨r, hr, rfl⟩ := hx
        have h6 := hbound r hr
        simp only [List.map_cons, List.map_nil, List.mem_cons,
          List.not_mem_nil, or_false] at hx2
        omega
      · intro r hr
        rcases List.mem_append.mp hr with hr | hr
        · exact lt_trans (hbound r hr) (by omega)
        · rcases List.mem_singleton.mp hr with rfl
          simp
      · rw [List.map_append, List.nodup_append]
        refine ⟨hemails, by simp, ?_⟩
        intro x hx hx2
        rw [List.mem_map] at hx
        obtain ⟨r, hr, rfl⟩ := hx
        simp only [List.map_cons, List.map_nil, List.mem_cons,
          List.not_mem_nil, or_false] at hx2
        exact hnoemail r hr hx2
      · intro l hl
        rcases List.mem_append.mp hl with hl | hl
        · exact lt_trans (hlinks l hl) (by omega)
        · rcases List.mem_singleton.mp hl with rfl
          simp
    · unfold linkedEmails linkedRecruitersOf
      dsimp only
      rw [List.filter_append, List.filterMap_append, List.map_append]
      congr 1
      · apply congrArg
        apply List.filterMap_congr
        intro l hl
        rw [List.mem_filter] at hl
        rw [List.find?_append]
        cases hfl : st.recruiters.find? (fun r => r.id == l.2) with
        | none =>
          rw [Option.none_or]
          have hlt := hlinks l hl.1
          rw [List.find?_cons_of_neg _ (by simp; omega), List.find?_nil]
        | some r2 => rfl
      · rw [List.filter_cons_of_pos (by simp), List.filter_nil]
        have h7 : st.recruiters.find? (fun r => r.id == st.nextRecruiterId) = none := by
          apply List.find?_eq_none.mpr
          intro r hr
          have := hbound r hr
          simp
          omega
        simp [h7]

theorem firstOccAux_cons (seen : List String) (e : String) (t : List String) :
    firstOccStringsAux seen (e :: t) =
      if e ∈ seen then firstOccStringsAux seen t
      else e :: firstOccStringsAux (e :: seen) t := rfl

theorem replaceFirstApp_cons (a : JobApplication) (t : List JobApplication)
    (rid : String) (u : JobApplication) :
    replaceFirstApp (a :: t) rid u =
      if a.spreadsheet_row_id == rid then u :: t
      else a :: replaceFirstApp t rid u := rfl

theorem linkFold_emails (appId : Nat) :
    ∀ (inputs : List RecruiterInput) (st : Store), recruiterTablesWF st →
      recruiterTablesWF (inputs.foldl (linkOneRecruiter appId) st) ∧
      linkedEmails (inputs.foldl (linkOneRecruiter appId) st) appId =
        linkedEmails st appId ++
          firstOccStringsAux (linkedEmails st appId) (inputs.filterMap truthyEmail) := by
  intro inputs
  induction inputs with
  | nil =>
    intro st hwf
    exact ⟨hwf, by simp [firstOccStringsAux]⟩
  | cons i t ih =>
    intro st hwf
    rw [List.foldl_cons]
    cases he : truthyEmail i with
    | none =>
      rw [linkOne_none_email st appId i he]
      simp only [List.filterMap_cons, he]
      exact ih st hwf
    | some e =>
      obtain ⟨hwf2, hlink⟩ := linkOne_spec st appId i e hwf he
      obtain ⟨hwf3, hfold⟩ := ih (linkOneRecruiter appId st i) hwf2
      refine ⟨hwf3, ?_⟩
      simp only [List.filterMap_cons, he]
      rw [hfold, hlink, firstOccAux_cons]
      by_cases hmem : e ∈ linkedEmails st appId
      · simp only [if_pos hmem]
      · simp only [if_neg hmem]
        rw [firstOccAux_congr (t.filterMap truthyEmail)
          (linkedEmails st appId ++ [e]) (e :: linkedEmails st appId)
          (by intro x; simp [or_comm])]
        rw [List.append_assoc]
        rfl

theorem linkedEmails_apps_irrel (st : Store) (apps2 : List JobApplication) (i : Nat) :
    linkedEmails { st with apps := apps2 } i = linkedEmails st i := rfl

theorem linkedEmails_no_links (st : Store) (i : Nat)
    (h : ∀ l ∈ st.links, l.1 ≠ i) : linkedEmails st i = [] := by
  unfold linkedEmails linkedRecruitersOf
  rw [List.filter_eq_nil_iff.mpr (by intro l hl; simpa using h l hl)]
  rfl

theorem recruiterTablesWF_clear (st : Store) (appId : Nat)
    (hwf : recruiterTablesWF st) :
    recruiterTablesWF { st with links := st.links.filter (fun l => !(l.1 == appId)) } := by
  obtain ⟨h1, h2, h3, h4⟩ := hwf
  refine ⟨h1, h2, h3, ?_⟩
  intro l hl
  exact h4 l (List.mem_filter.mp hl).1

theorem linkedEmails_clear (st : Store) (appId : Nat) :
    linkedEmails { st with links := st.links.filter (fun l => !(l.1 == appId)) } appId = [] := by
  apply linkedEmails_no_links
  intro l hl
  have := (List.mem_filter.mp hl).2
  simpa using this

theorem linkRecruiters_emails (st : Store) (appId : Nat) (inputs : List RecruiterInput)
    (hwf : recruiterTablesWF st) :
    recruiterTablesWF (linkRecruitersToApplication st appId inputs) ∧
    linkedEmails (linkRecruitersToApplication st appId inputs) appId =
      (if inputs.isEmpty then linkedEmails st appId else dedupTruthyEmails inputs) := by
  unfold linkRecruitersToApplication
  by_cases hemp : inputs.isEmpty
  · rw [if_pos hemp, if_pos hemp]
    exact ⟨hwf, rfl⟩
  · rw [if_neg hemp, if_neg hemp]
    have hwfc := recruiterTablesWF_clear st appId hwf
    obtain ⟨hwf2, hle⟩ := linkFold_emails appId inputs _ hwfc
    refine ⟨hwf2, ?_⟩
    rw [hle, linkedEmails_clear]
    rfl

theorem replaceFirst_append_no_match (l2 : List JobApplication) (rid : String)
    (u : JobApplication) :
    ∀ l1 : List JobApplication, (∀ a ∈ l1, a.spreadsheet_row_id ≠ rid) →
      replaceFirstApp (l1 ++ l2) rid u = l1 ++ replaceFirstApp l2 rid u := by
  intro l1
  induction l1 with
  | nil => intro _; rfl
  | cons a t ih =>
    intro h
    have hne : ¬ ((a.spreadsheet_row_id == rid) = true) := by
      simp only [beq_iff_eq]
      exact h a (List.mem_cons_self a t)
    rw [List.cons_append, replaceFirstApp_cons, if_neg hne,
      ih (fun x hx => h x (List.mem_cons_of_mem a hx)), List.cons_append]

theorem getOrCreate_none (st : Store) (a : UpsertArgs) (n : Int)
    (hfind : st.apps.find? (fun x =>
      x.spreadsheet_row_id == a.spreadsheet_row_id) = none) :
    getOrCreateJobApplication st a n =
      (linkRecruitersToApplication
        { st with
            apps := st.apps ++ [freshApp a n st.nextAppId],
            nextAppId := st.nextAppId + 1 }
        st.nextAppId a.recruiters, st.nextAppId) := by
  rw [getOrCreateJobApplication]
  simp only [hfind]
  rfl

theorem getOrCreate_some (st : Store) (a : UpsertArgs) (n : Int)
    (app : JobApplication)
    (hfind : st.apps.find? (fun x =>
      x.spreadsheet_row_id == a.spreadsheet_row_id) = some app) :
    getOrCreateJobApplication st a n =
      (linkRecruitersToApplication
        { st with
            apps := replaceFirstApp st.apps a.spreadsheet_row_id (updApp a n app) }
        app.id a.recruiters, app.id) := by
  rw [getOrCreateJobApplication]
  simp only [hfind]
  rfl

/-- C5 counterexample: upserting the same row id twice where the second
call carries an empty `company_name` and an EMPTY recruiter list: the
final company name is the empty string (not the earlier non-empty value),
and the recruiter set is the FIRST call's set, not the second call's
(empty) set -- `_link_recruiters_to_application` returns before clearing
when given no recruiters, and `company_name` is overwritten
unconditionally. -/
theorem upsert_empty_overwrite_cex :
    (findApp (getOrCreateJobApplication
        (getOrCreateJobApplication emptyStore c5args1 0).1 c5args2 1).1 1).map
      (fun a => a.company_name) = some "" ∧
    linkedEmails (getOrCreateJobApplication
        (getOrCreateJobApplication emptyStore c5args1 0).1 c5args2 1).1 1 =
      ["alice@x.com"] ∧
    c5args2.company_name = "" ∧ c5args1.company_name = "Acme" ∧
    c5args2.recruiters = [] := by decide

/-- C5 (amended): upserting the same (previously unseen) row identifier
twice yields exactly one JobApplication for it; `company_name` and
`position` hold the SECOND call's values unconditionally (even when
empty), while the optional fields follow Python `or` (the later value
wins only when truthy); the linked recruiter set is fully replaced by the
second call's distinct truthy recruiter emails WHEN that list is
non-empty, and is left at the first call's set when the second call
passes no recruiters. -/
theorem upsert_twice_replaces :
    ∀ (st : Store) (a1 a2 : UpsertArgs) (n1 n2 : Int) (st1 st2 : Store) (id1 id2 : Nat),
      getOrCreateJobApplication st a1 n1 = (st1, id1) →
      getOrCreateJobApplication st1 a2 n2 = (st2, id2) →
      a2.spreadsheet_row_id = a1.spreadsheet_row_id →
      (∀ app ∈ st.apps, app.spreadsheet_row_id ≠ a1.spreadsheet_row_id) →
      (∀ l ∈ st.links, l.1 ≠ st.nextAppId) →
      recruiterTablesWF st →
      id2 = id1 ∧
      (st2.apps.filter (fun a =>
        a.spreadsheet_row_id == a1.spreadsheet_row_id)).length = 1 ∧
      (∃ app, st2.apps.find? (fun a =>
          a.spreadsheet_row_id == a1.spreadsheet_row_id) = some app ∧
        app.id = id1 ∧
        app.company_name = a2.company_name ∧
        app.position = a2.position ∧
        app.location = pyOrStr a2.location a1.location ∧
        app.job_posting_url = pyOrStr a2.job_posting_url a1.job_posting_url ∧
        app.expected_salary = pyOrStr a2.expected_salary a1.expected_salary ∧
        app.custom_message = pyOrStr a2.custom_message a1.custom_message) ∧
      linkedEmails st2 id1 =
        (if a2.recruiters.isEmpty then dedupTruthyEmails a1.recruiters
         else dedupTruthyEmails a2.recruiters) := by
  intro st a1 a2 n1 n2 st1 st2 id1 id2 h1 h2 hrow hfreshRow hfreshLink hwf
  have hfind1 : st.apps.find? (fun a =>
      a.spreadsheet_row_id == a1.spreadsheet_row_id) = none := by
    apply List.find?_eq_none.mpr
    intro a ha
    simpa using hfreshRow a ha
  rw [getOrCreate_none st a1 n1 hfind1, Prod.mk.injEq] at h1
  obtain ⟨hst1, hid1⟩ := h1
  have hwfc : recruiterTablesWF { st with
      apps := st.apps ++ [freshApp a1 n1 st.nextAppId],
      nextAppId := st.nextAppId + 1 } := hwf
  have hst1apps : st1.apps = st.apps ++ [freshApp a1 n1 st.nextAppId] := by
    rw [← hst1, linkRecruiters_apps]
  have hwf1 : recruiterTablesWF st1 := by
    rw [← hst1]
    exact (linkRecruiters_emails _ st.nextAppId a1.recruiters hwfc).1
  have hle1 : linkedEmails st1 id1 = dedupTruthyEmails a1.recruiters := by
    rw [← hid1, ← hst1,
      (linkRecruiters_emails _ st.nextAppId a1.recruiters hwfc).2]
    by_cases hemp : a1.recruiters.isEmpty
    · rw [if_pos hemp]
      rw [show linkedEmails { st with
          apps := st.apps ++ [freshApp a1 n1 st.nextAppId],
          nextAppId := st.nextAppId + 1 } st.nextAppId =
        linkedEmails st st.nextAppId from rfl]
      rw [linkedEmails_no_links st st.nextAppId hfreshLink,
        List.isEmpty_iff.mp hemp]
      rfl
    · rw [if_neg hemp]
  have hfreshRow2 : st.apps.find? (fun a =>
      a.spreadsheet_row_id == a2.spreadsheet_row_id) = none := by
    apply List.find?_eq_none.mpr
    intro a ha
    rw [hrow]
    simpa using hfreshRow a ha
  have hfind2 : st1.apps.find? (fun a =>
      a.spreadsheet_row_id == a2.spreadsheet_row_id) =
        some (freshApp a1 n1 st.nextAppId) := by
    rw [hst1apps, List.find?_append, hfreshRow2, Option.none_or]
    exact List.find?_cons_of_pos _ (by simp [freshApp, hrow])
  rw [getOrCreate_some st1 a2 n2 _ hfind2, Prod.mk.injEq] at h2
  obtain ⟨hst2, hid2⟩ := h2
  have hst2apps : st2.apps =
      st.apps ++ [updApp a2 n2 (freshApp a1 n1 st.nextAppId)] := by
    rw [← hst2, linkRecruiters_apps]
    rw [show ({ st1 with
        apps := replaceFirstApp st1.apps a2.spreadsheet_row_id
          (updApp a2 n2 (freshApp a1 n1 st.nextAppId)) } : Store).apps =
      replaceFirstApp st1.apps a2.spreadsheet_row_id
        (updApp a2 n2 (freshApp a1 n1 st.nextAppId)) from rfl]
    rw [hst1apps, hrow,
      replaceFirst_append_no_match _ _ _ st.apps hfreshRow,
      replaceFirstApp_cons,
      if_pos (show ((freshApp a1 n1 st.nextAppId).spreadsheet_row_id ==
        a1.spreadsheet_row_id) = true by simp [freshApp])]
  refine ⟨?_, ?_,
    ⟨updApp a2 n2 (freshApp a1 n1 st.nextAppId), ?_, ?_,
      rfl, rfl, rfl, rfl, rfl, rfl⟩, ?_⟩
  · rw [← hid2, show (freshApp a1 n1 st.nextAppId).id = st.nextAppId from rfl]
    exact hid1
  · rw [hst2apps, List.filter_append,
      List.filter_eq_nil_iff.mpr (by intro a ha; simpa using hfreshRow a ha),
      List.filter_cons_of_pos (by simp [updApp, freshApp])]
    rfl
  · rw [hst2apps, List.find?_append, hfind1, Option.none_or]
    exact List.find?_cons_of_pos _ (by simp [updApp, freshApp])
  · rw [show (updApp a2 n2 (freshApp a1 n1 st.nextAppId)).id =
      st.nextAppId from rfl]
    exact hid1
  · have hwf2c : recruiterTablesWF { st1 with
        apps := replaceFirstApp st1.apps a2.spreadsheet_row_id
          (updApp a2 n2 (freshApp a1 n1 st.nextAppId)) } := hwf1
    rw [← hst2,
      show (freshApp a1 n1 st.nextAppId).id = id1 from hid1,
      (linkRecruiters_emails _ id1 a2.recruiters hwf2c).2]
    by_cases hemp2 : a2.recruiters.isEmpty
    · rw [if_pos hemp2, if_pos hemp2, linkedEmails_apps_irrel]
      exact hle1
    · rw [if_neg hemp2, if_neg hemp2]

theorem upsert_twice_replaces_witness :
    (∀ app ∈ emptyStore.apps,
      app.spreadsheet_row_id ≠ c5args1.spreadsheet_row_id) ∧
    linkedEmails (getOrCreateJobApplication
        (getOrCreateJobApplication emptyStore c5args1 0).1 c5args1 1).1
      (getOrCreateJobApplication emptyStore c5args1 0).2 =
      (if c5args1.recruiters.isEmpty then dedupTruthyEmails c5args1.recruiters
       else dedupTruthyEmails c5args1.recruiters) := by
  refine ⟨by decide, ?_⟩
  have h := upsert_twice_replaces emptyStore c5args1 c5args1 0 1
    (getOrCreateJobApplication emptyStore c5args1 0).1
    (getOrCreateJobApplication
      (getOrCreateJobApplication emptyStore c5args1 0).1 c5args1 1).1
    (getOrCreateJobApplication emptyStore c5args1 0).2
    (getOrCreateJobApplication
      (getOrCreateJobApplication emptyStore c5args1 0).1 c5args1 1).2
    rfl rfl rfl (by decide) (by decide) (by decide)
  exact h.2.2.2

theorem specFirstOccBy_nil (key : List Char → List Char) :
    specFirstOccBy key [] = [] := by
  rw [specFirstOccBy]

theorem specFirstOccBy_cons (key : List Char → List Char) (e : ParsedRecruiter)
    (rest : List ParsedRecruiter) :
    specFirstOccBy key (e :: rest) =
      if e.email.isEmpty then specFirstOccBy key rest
      else e :: specFirstOccBy key
        (rest.filter fun x => !(key x.email == key e.email)) := by
  rw [specFirstOccBy]

theorem dedupCI_cons (seen : List (List Char)) (e : ParsedRecruiter)
    (t : List ParsedRecruiter) :
    dedupCaseInsensitiveAux seen (e :: t) =
      if e.email.isEmpty then dedupCaseInsensitiveAux seen t
      else if e.email.map Char.toLower ∈ seen then dedupCaseInsensitiveAux seen t
      else e :: dedupCaseInsensitiveAux (e.email.map Char.toLower :: seen) t := rfl

theorem dedupExact_cons (seen : List (List Char)) (e : ParsedRecruiter)
    (t : List ParsedRecruiter) :
    dedupExactAux seen (e :: t) =
      if e.email.isEmpty then dedupExactAux seen t
      else if e.email ∈ seen then dedupExactAux seen t
      else e :: dedupExactAux (e.email :: seen) t := rfl

theorem dedupCI_eq_spec :
    ∀ (n : Nat) (l : List ParsedRecruiter) (seen : List (List Char)),
      l.length ≤ n →
      dedupCaseInsensitiveAux seen l =
        specFirstOccBy (List.map Char.toLower)
          (l.filter fun e => !(decide (e.email.map Char.toLower ∈ seen))) := by
  intro n
  induction n with
  | zero =>
    intro l seen hl
    rw [List.eq_nil_of_length_eq_zero (Nat.le_zero.mp hl),
      List.filter_nil, specFirstOccBy_nil]
    rfl
  | succ n ih =>
    intro l seen hl
    cases l with
    | nil =>
      rw [List.filter_nil, specFirstOccBy_nil]
      rfl
    | cons e t =>
      rw [List.length_cons] at hl
      have hlt : t.length ≤ n := by omega
      rw [dedupCI_cons, List.filter_cons]
      by_cases hemp : e.email.isEmpty
      · rw [if_pos hemp]
        by_cases hseen : e.email.map Char.toLower ∈ seen
        · rw [if_neg (by simp [hseen])]
          exact ih t seen hlt
        · rw [if_pos (by simp [hseen]), specFirstOccBy_cons, if_pos hemp]
          exact ih t seen hlt
      · rw [if_neg hemp]
        by_cases hseen : e.email.map Char.toLower ∈ seen
        · rw [if_pos hseen, if_neg (by simp [hseen])]
          exact ih t seen hlt
        · rw [if_neg hseen, if_pos (by simp [hseen]),
            specFirstOccBy_cons, if_neg hemp]
          have hff : ((t.filter fun x =>
              !(decide (x.email.map Char.toLower ∈ seen))).filter
                fun x => !(x.email.map Char.toLower ==
                  e.email.map Char.toLower)) =
              t.filter (fun x => !(decide (x.email.map Char.toLower ∈
                e.email.map Char.toLower :: seen))) := by
            rw [List.filter_filter]
            apply List.filter_congr
            intro x _
            by_cases h1 : x.email.map Char.toLower ∈ seen
            · simp [List.mem_cons, h1]
            · by_cases h2 : x.email.map Char.toLower = e.email.map Char.toLower
              · simp [List.mem_cons, h1, h2]
              · simp [List.mem_cons, h1, h2]
          rw [hff, ih t _ hlt]

theorem dedupExact_eq_spec :
    ∀ (n : Nat) (l : List ParsedRecruiter) (seen : List (List Char)),
      l.length ≤ n →
      dedupExactAux seen l =
        specFirstOccBy id (l.filter fun e => !(decide (e.email ∈ seen))) := by
  intro n
  induction n with
  | zero =>
    intro l seen hl
    rw [List.eq_nil_of_length_eq_zero (Nat.le_zero.mp hl),
      List.filter_nil, specFirstOccBy_nil]
    rfl
  | succ n ih =>
    intro l seen hl
    cases l with
    | nil =>
      rw [List.filter_nil, specFirstOccBy_nil]
      rfl
    | cons e t =>
      rw [List.length_cons] at hl
      have hlt : t.length ≤ n := by omega
      rw [dedupExact_cons, List.filter_cons]
      by_cases hemp : e.email.isEmpty
      · rw [if_pos hemp]
        by_cases hseen : e.email ∈ seen
        · rw [if_neg (by simp [hseen])]
          exact ih t seen hlt
        · rw [if_pos (by simp [hseen]), specFirstOccBy_cons, if_pos hemp]
          exact ih t seen hlt
      · rw [if_neg hemp]
        by_cases hseen : e.email ∈ seen
        · rw [if_pos hseen, if_neg (by simp [hseen])]
          exact ih t seen hlt
        · rw [if_neg hseen, if_pos (by simp [hseen]),
            specFirstOccBy_cons, if_neg hemp]
          have hff : ((t.filter fun x => !(decide (x.email ∈ seen))).filter
                fun x => !(id x.email == id e.email)) =
              t.filter (fun x => !(decide (x.email ∈ e.email :: seen))) := by
            rw [List.filter_filter]
            apply List.filter_congr
            intro x _
            by_cases h1 : x.email ∈ seen
            · simp [List.mem_cons, h1]
            · by_cases h2 : x.email = e.email
              · simp [List.mem_cons, h1, h2]
              · simp [List.mem_cons, h1, h2]
          rw [hff, ih t _ hlt]

theorem cvParse_eq_spec (cell : List Char) :
    cvParseRecruiters cell =
      specFirstOccBy (List.map Char.toLower) (cvRawEntries cell) := by
  rw [cvParseRecruiters,
    dedupCI_eq_spec (cvRawEntries cell).length (cvRawEntries cell) [] le_rfl,
    List.filter_eq_self.mpr (by intro x _; simp)]

theorem legacyParse_eq_spec (cell : List Char) :
    legacyParseRecruiters cell =
      specFirstOccBy id (legacyRawEntries cell) := by
  rw [legacyParseRecruiters,
    dedupExact_eq_spec (legacyRawEntries cell).length (legacyRawEntries cell) [] le_rfl,
    List.filter_eq_self.mpr (by intro x _; simp)]

theorem specFirstOccPairs_nil : specFirstOccPairs [] = [] := by
  rw [specFirstOccPairs]

theorem specFirstOccPairs_cons (p : String × Option String)
    (rest : List (String × Option String)) :
    specFirstOccPairs (p :: rest) =
      if p.1.isEmpty then specFirstOccPairs rest
      else p :: specFirstOccPairs (rest.filter fun q => !(q.1 == p.1)) := by
  rw [specFirstOccPairs]

theorem dedupRecipientsAux_cons (seen : List String) (e : String)
    (nm : Option String) (t : List (String × Option String)) :
    dedupRecipientsAux seen ((e, nm) :: t) =
      if !e.isEmpty && !(decide (e ∈ seen)) then
        (e, nm) :: dedupRecipientsAux (e :: seen) t
      else dedupRecipientsAux seen t := rfl

theorem dedupPairs_eq_spec :
    ∀ (n : Nat) (l : List (String × Option String)) (seen : List String),
      l.length ≤ n →
      dedupRecipientsAux seen l =
        specFirstOccPairs (l.filter fun q => !(decide (q.1 ∈ seen))) := by
  intro n
  induction n with
  | zero =>
    intro l seen hl
    rw [List.eq_nil_of_length_eq_zero (Nat.le_zero.mp hl),
      List.filter_nil, specFirstOccPairs_nil]
    rfl
  | succ n ih =>
    intro l seen hl
    cases l with
    | nil =>
      rw [List.filter_nil, specFirstOccPairs_nil]
      rfl
    | cons p t =>
      obtain ⟨e, nm⟩ := p
      rw [List.length_cons] at hl
      have hlt : t.length ≤ n := by omega
      rw [dedupRecipientsAux_cons, List.filter_cons]
      by_cases hemp : e.isEmpty
      · rw [if_neg (by simp [hemp])]
        by_cases hseen : e ∈ seen
        · rw [if_neg (by simp [hseen])]
          exact ih t seen hlt
        · rw [if_pos (by simp [hseen]), specFirstOccPairs_cons, if_pos hemp]
          exact ih t seen hlt
      · by_cases hseen : e ∈ seen
        · rw [if_neg (by simp [hseen]), if_neg (by simp [hseen])]
          exact ih t seen hlt
        · rw [if_pos (by simp [hemp, hseen]), if_pos (by simp [hseen]),
            specFirstOccPairs_cons, if_neg hemp]
          have hff : ((t.filter fun q => !(decide (q.1 ∈ seen))).filter
                fun q => !(q.1 == (e, nm).1)) =
              t.filter (fun q => !(decide (q.1 ∈ e :: seen))) := by
            rw [List.filter_filter]
            apply List.filter_congr
            intro x _
            by_cases h1 : x.1 ∈ seen
            · simp [List.mem_cons, h1]
            · by_cases h2 : x.1 = e
              · simp [List.mem_cons, h1, h2]
              · simp [List.mem_cons, h1, h2]
          rw [hff, ih t _ hlt]

theorem followUpRecipients_eq (st : Store) (appId : Nat) :
    followUpRecipients st appId =
      (if (firstContactSentRecords st.records appId).isEmpty then
        (if (linkedRecruitersOf st appId).isEmpty then none
         else some ((linkedRecruitersOf st appId).map fun r => (r.email, r.name)))
       else some (specFirstOccPairs
         ((firstContactSentRecords st.records appId).map
           fun r => (r.recipient_email, r.recipient_name)))) := by
  simp only [followUpRecipients]
  by_cases hfc : (firstContactSentRecords st.records appId).isEmpty
  · rw [if_pos hfc, if_pos hfc]
  · rw [if_neg hfc, if_neg hfc,
      dedupPairs_eq_spec ((firstContactSentRecords st.records appId).map
        fun r => (r.recipient_email, r.recipient_name)).length _ [] le_rfl,
      List.filter_eq_self.mpr (by intro x _; simp)]

theorem sendWaveGo_nil (appId n : Nat) (oracle : String → Option String)
    (render : Option String → Nat → String × String) (now : Int) (st : Store) :
    sendWaveGo appId n oracle render now [] st = Except.ok (st, 0) := rfl

theorem sendWaveGo_cons (appId n : Nat) (oracle : String → Option String)
    (render : Option String → Nat → String × String) (now : Int)
    (e : String) (name : Option String)
    (rest : List (String × Option String)) (st : Store) :
    sendWaveGo appId n oracle render now ((e, name) :: rest) st =
      if hasSentFollowUpTo st.records appId e n then
        sendWaveGo appId n oracle render now rest st
      else if pyTruthyStr (oracle e) then
        match recordEmailSent st
          { job_application_id := appId, email_type := EmailType.follow_up,
            subject := (render name n).1, body := (render name n).2,
            recipient_email := e, recipient_name := name,
            gmail_message_id := oracle e,
            is_follow_up := true, follow_up_number := n } now with
        | Except.error msg => Except.error msg
        | Except.ok (st1, _) =>
          match sendWaveGo appId n oracle render now rest st1 with
          | Except.error m => Except.error m
          | Except.ok (st2, c) => Except.ok (st2, c + 1)
      else sendWaveGo appId n oracle render now rest st := rfl

theorem recordEmailSent_ok_fields (st : Store) (a : RecordSentArgs) (now : Int)
    (st1 : Store) (rec : EmailRecord)
    (h : recordEmailSent st a now = Except.ok (st1, rec)) :
    st1.records = st.records ++ [rec] ∧
    rec.job_application_id = a.job_application_id ∧
    rec.recipient_email = a.recipient_email ∧
    rec.is_follow_up = a.is_follow_up ∧
    rec.follow_up_number = a.follow_up_number ∧
    rec.status = (if pyTruthyStr a.gmail_message_id then EmailStatus.sent
      else EmailStatus.pending) := by
  cases hfind : findApp st a.job_application_id with
  | none =>
    rw [recordEmailSent, hfind] at h
    exact absurd h (by simp)
  | some app =>
    rw [recordEmailSent, hfind] at h
    simp only [Except.ok.injEq, Prod.mk.injEq] at h
    obtain ⟨hst, hrec⟩ := h
    subst hst
    subst hrec
    exact ⟨rfl, rfl, rfl, rfl, rfl, rfl⟩

theorem hasSent_append (records ext : List EmailRecord) (appId : Nat)
    (e : String) (n : Nat) (h : hasSentFollowUpTo records appId e n = true) :
    hasSentFollowUpTo (records ++ ext) appId e n = true := by
  unfold hasSentFollowUpTo at h ⊢
  rw [List.any_append, h, Bool.true_or]

theorem hasSent_of_new (records : List EmailRecord) (rec : EmailRecord)
    (appId : Nat) (e : String) (n : Nat)
    (h1 : rec.job_application_id = appId) (h2 : rec.recipient_email = e)
    (h3 : rec.is_follow_up = true) (h4 : rec.follow_up_number = n)
    (h5 : rec.status = EmailStatus.sent) :
    hasSentFollowUpTo (records ++ [rec]) appId e n = true := by
  unfold hasSentFollowUpTo
  rw [List.any_append, Bool.or_eq_true]
  right
  simp [h1, h2, h3, h4, h5]

theorem sendWaveGo_records (appId n : Nat) (oracle : String → Option String)
    (render : Option String → Nat → String × String) (now : Int) :
    ∀ (recips : List (String × Option String)) (st st1 : Store) (c : Nat),
      sendWaveGo appId n oracle render now recips st = Except.ok (st1, c) →
      ∃ ext, st1.records = st.records ++ ext := by
  intro recips
  induction recips with
  | nil =>
    intro st st1 c h
    rw [sendWaveGo_nil] at h
    simp only [Except.ok.injEq, Prod.mk.injEq] at h
    exact ⟨[], by rw [← h.1, List.append_nil]⟩
  | cons p rest ih =>
    obtain ⟨e, name⟩ := p
    intro st st1 c h
    rw [sendWaveGo_cons] at h
    by_cases hskip : hasSentFollowUpTo st.records appId e n
    · rw [if_pos hskip] at h
      exact ih st st1 c h
    · rw [if_neg hskip] at h
      by_cases hor : pyTruthyStr (oracle e)
      · rw [if_pos hor] at h
        cases hrec : recordEmailSent st
          { job_application_id := appId, email_type := EmailType.follow_up,
            subject := (render name n).1, body := (render name n).2,
            recipient_email := e, recipient_name := name,
            gmail_message_id := oracle e,
            is_follow_up := true, follow_up_number := n } now with
        | error msg =>
          simp only [hrec] at h
          simp at h
        | ok pair =>
          obtain ⟨stm, recm⟩ := pair
          simp only [hrec] at h
          cases hrest : sendWaveGo appId n oracle render now rest stm with
          | error m =>
            simp only [hrest] at h
            simp at h
          | ok pair2 =>
            obtain ⟨st2, c2⟩ := pair2
            simp only [hrest] at h
            simp only [Except.ok.injEq, Prod.mk.injEq] at h
            obtain ⟨ext2, hext2⟩ := ih stm st2 c2 hrest
            refine ⟨[recm] ++ ext2, ?_⟩
            rw [← h.1, hext2,
              (recordEmailSent_ok_fields st _ now stm recm hrec).1,
              List.append_assoc]
      · rw [if_neg hor] at h
        exact ih st st1 c h

theorem sendWaveGo_after (appId n : Nat) (oracle : String → Option String)
    (render : Option String → Nat → String × String) (now : Int) :
    ∀ (recips : List (String × Option String)) (st st1 : Store) (c : Nat),
      sendWaveGo appId n oracle render now recips st = Except.ok (st1, c) →
      ∀ p ∈ recips, hasSentFollowUpTo st1.records appId p.1 n = true ∨
        pyTruthyStr (oracle p.1) = false := by
  intro recips
  induction recips with
  | nil =>
    intro st st1 c _ p hp
    cases hp
  | cons q rest ih =>
    obtain ⟨e, name⟩ := q
    intro st st1 c h p hp
    rw [sendWaveGo_cons] at h
    rcases List.mem_cons.mp hp with rfl | hp'
    · by_cases hskip : hasSentFollowUpTo st.records appId e n
      · rw [if_pos hskip] at h
        left
        obtain ⟨ext, hext⟩ := sendWaveGo_records appId n oracle render now
          rest st st1 c h
        rw [hext]
        exact hasSent_append _ _ _ _ _ hskip
      · rw [if_neg hskip] at h
        by_cases hor : pyTruthyStr (oracle e)
        · rw [if_pos hor] at h
          cases hrec : recordEmailSent st
            { job_application_id := appId, email_type := EmailType.follow_up,
              subject := (render name n).1, body := (render name n).2,
              recipient_email := e, recipient_name := name,
              gmail_message_id := oracle e,
              is_follow_up := true, follow_up_number := n } now with
          | error msg =>
            simp only [hrec] at h
            simp at h
          | ok pair =>
            obtain ⟨stm, recm⟩ := pair
            simp only [hrec] at h
            obtain ⟨hrecs, hf1, hf2, hf3, hf4, hf5⟩ :=
              recordEmailSent_ok_fields st _ now stm recm hrec
            have hstat : recm.status = EmailStatus.sent := by
              rw [hf5]
              dsimp only
              rw [if_pos hor]
            have hsent : hasSentFollowUpTo stm.records appId e n = true := by
              rw [hrecs]
              exact hasSent_of_new _ _ _ _ _ hf1 hf2 hf3 hf4 hstat
            cases hrest : sendWaveGo appId n oracle render now rest stm with
            | error m =>
              simp only [hrest] at h
              simp at h
            | ok pair2 =>
              obtain ⟨st2, c2⟩ := pair2
              simp only [hrest] at h
              simp only [Except.ok.injEq, Prod.mk.injEq] at h
              left
              obtain ⟨ext, hext⟩ := sendWaveGo_records appId n oracle render now
                rest stm st2 c2 hrest
              rw [← h.1, hext]
              exact hasSent_append _ _ _ _ _ hsent
        · rw [if_neg hor] at h
          right
          exact Bool.eq_false_iff.mpr hor
    · by_cases hskip : hasSentFollowUpTo st.records appId e n
      · rw [if_pos hskip] at h
        exact ih st st1 c h p hp'
      · rw [if_neg hskip] at h
        by_cases hor : pyTruthyStr (oracle e)
        · rw [if_pos hor] at h
          cases hrec : recordEmailSent st
            { job_application_id := appId, email_type := EmailType.follow_up,
              subject := (render name n).1, body := (render name n).2,
              recipient_email := e, recipient_name := name,
              gmail_message_id := oracle e,
              is_follow_up := true, follow_up_number := n } now with
          | error msg =>
            simp only [hrec] at h
            simp at h
          | ok pair =>
            obtain ⟨stm, recm⟩ := pair
            simp only [hrec] at h
            cases hrest : sendWaveGo appId n oracle render now rest stm with
            | error m =>
              simp only [hrest] at h
              simp at h
            | ok pair2 =>
              obtain ⟨st2, c2⟩ := pair2
              simp only [hrest] at h
              simp only [Except.ok.injEq, Prod.mk.injEq] at h
              rcases ih stm st2 c2 hrest p hp' with hh | hh
              · left
                rw [← h.1]
                exact hh
              · right
                exact hh
        · rw [if_neg hor] at h
          exact ih st st1 c h p hp'

theorem sendWaveGo_skip_all (appId n : Nat) (oracle : String → Option String)
    (render : Option String → Nat → String × String) (now : Int) :
    ∀ (recips : List (String × Option String)) (st : Store),
      (∀ p ∈ recips, hasSentFollowUpTo st.records appId p.1 n = true ∨
        pyTruthyStr (oracle p.1) = false) →
      sendWaveGo appId n oracle render now recips st = Except.ok (st, 0) := by
  intro recips
  induction recips with
  | nil =>
    intro st _
    exact sendWaveGo_nil appId n oracle render now st
  | cons q rest ih =>
    obtain ⟨e, name⟩ := q
    intro st h
    rw [sendWaveGo_cons]
    have hrest := fun p hp => h p (List.mem_cons_of_mem (e, name) hp)
    rcases h (e, name) (List.mem_cons_self (e, name) rest) with hskip | hfalsy
    · rw [if_pos hskip]
      exact ih st hrest
    · by_cases hskip : hasSentFollowUpTo st.records appId e n
      · rw [if_pos hskip]
        exact ih st hrest
      · rw [if_neg hskip, if_neg (by simp [hfalsy])]
        exact ih st hrest

/-- C6: follow-up wave recipients and the duplicate guard. (1) The
recipients of a wave are the distinct recipients (first occurrence first,
falsy emails dropped) of the application's successful first-contact
records; when no such record exists the currently linked Recruiter set is
used as-is, and with neither the application is skipped. (2) A wave in
which every recipient already has a sent follow-up record with that exact
number sends nothing and leaves the store untouched. (3) Re-running a
completed wave with the same wave number sends nothing and changes
nothing: every recipient the first run reached now has a sent record with
that number and is skipped, and every recipient it could not send to
fails the same way again (sends are modelled by a deterministic oracle;
failed sends are not recorded). -/
theorem follow_up_wave_recipients :
    (∀ (st : Store) (appId : Nat),
      followUpRecipients st appId =
        (if (firstContactSentRecords st.records appId).isEmpty then
          (if (linkedRecruitersOf st appId).isEmpty then none
           else some ((linkedRecruitersOf st appId).map fun r => (r.email, r.name)))
         else some (specFirstOccPairs
           ((firstContactSentRecords st.records appId).map
             fun r => (r.recipient_email, r.recipient_name))))) ∧
    (∀ (appId n : Nat) (oracle : String → Option String)
        (render : Option String → Nat → String × String) (now : Int)
        (recips : List (String × Option String)) (st : Store),
      (∀ p ∈ recips, hasSentFollowUpTo st.records appId p.1 n = true) →
      sendWaveGo appId n oracle render now recips st = Except.ok (st, 0)) ∧
    (∀ (appId n : Nat) (oracle : String → Option String)
        (render : Option String → Nat → String × String) (now : Int)
        (recips : List (String × Option String)) (st st1 : Store) (c : Nat),
      sendWaveGo appId n oracle render now recips st = Except.ok (st1, c) →
      sendWaveGo appId n oracle render now recips st1 = Except.ok (st1, 0)) := by
  refine ⟨followUpRecipients_eq, ?_, ?_⟩
  · intro appId n oracle render now recips st h
    exact sendWaveGo_skip_all appId n oracle render now recips st
      (fun p hp => Or.inl (h p hp))
  · intro appId n oracle render now recips st st1 c h
    exact sendWaveGo_skip_all appId n oracle render now recips st1
      (sendWaveGo_after appId n oracle render now recips st st1 c h)

theorem follow_up_wave_recipients_witness :
    (∀ q ∈ [("a@x.com", (none : Option String))],
      hasSentFollowUpTo c6store.records 1 q.1 1 = true) ∧
    sendWaveGo 1 1 c6oracle c6render 30 [("a@x.com", none)] c6store =
      Except.ok (c6store, 0) := by
  refine ⟨by decide, ?_⟩
  exact follow_up_wave_recipients.2.1 1 1 c6oracle c6render 30
    [("a@x.com", none)] c6store (by decide)

/-- C7 counterexample: the legacy parser deduplicates by the EXACT email
string, so the cell "alice@x.com, ALICE@x.com" -- two spellings of the
same address differing only in case -- yields TWO contacts whose
lower-cased emails coincide, not one. -/
theorem legacy_dedup_case_sensitive_cex :
    (legacyParseRecruiters ("alice@x.com, ALICE@x.com".data)).length = 2 ∧
    (legacyParseRecruiters ("alice@x.com, ALICE@x.com".data)).map
      (fun e => e.email.map Char.toLower) =
      ["alice@x.com".data, "alice@x.com".data] := by decide

/-- C7 (amended): the reorganized parser (`src/cv_mailer/parsers/recruiter.py`)
deduplicates its raw entries by LOWER-CASED email, first occurrence
winning and order preserved, as claimed; the legacy parser
(`recruiter_parser.py`) deduplicates by the EXACT email string
(case-SENSITIVELY), first occurrence winning and order preserved. On the
cited example "Alice - alice@x.com, alice@x.com" -- where the duplicate
spellings are identical -- both parsers return exactly one contact. -/
theorem parse_recruiters_dedup :
    (∀ cell : List Char,
      cvParseRecruiters cell =
        specFirstOccBy (List.map Char.toLower) (cvRawEntries cell)) ∧
    (∀ cell : List Char,
      legacyParseRecruiters cell = specFirstOccBy id (legacyRawEntries cell)) ∧
    (cvParseRecruiters ("Alice - alice@x.com, alice@x.com".data)).length = 1 ∧
    (legacyParseRecruiters ("Alice - alice@x.com, alice@x.com".data)).length = 1 := by
  exact ⟨cvParse_eq_spec, legacyParse_eq_spec, by decide, by decide⟩

end CvMailer
